import Mathlib

/-!
Verification of the transcript ingestion / hybrid retrieval backend.

This file gives a shallow embedding, in Lean 4, of the pure computational
core of the repository:

* the timestamp aligner (`matchChunkToTimestamp`, `preprocessTimestampSegments`
  from the timestamp-matching module),
* the hybrid search result fusion (`fuseAndRankResults`,
  `performSemanticSearch` from `src/lib/hybrid-search.ts`),
* the text chunker (`chunkText`, `estimateTokens` from `src/lib/rag.ts`),
* the two chunk stores (`storeTranscriptChunks` in `src/lib/pinecone.ts` and
  `src/lib/rag.ts`),
* the ingestion orchestration fragments of `src/routes/health.ts`
  (duplicate-request check, eligibility gate, processing timeout wrapper).

Modelling conventions:

* JavaScript strings are modelled as Lean `String` (a wrapper around
  `List Char`); all concrete inputs used below are ASCII, where
  `Char.toLower` agrees with JavaScript `toLowerCase`.
* JavaScript numbers are modelled as exact rationals (`Rat`).  Every
  constant appearing in the modelled code (0.7, 0.3, 0.1, 0.8, 0.05, 2500,
  ...) is exactly representable, and no comparison below is close enough to
  a floating-point boundary for rounding to change a branch.
* `Array.prototype.sort` is required to be stable by the ECMAScript
  specification; it is modelled by `List.insertionSort` with the reflexive
  descending comparison, which is the stable descending sort.
* Functions that skip a variable number of characters (regex scanning) are
  written with an explicit fuel argument equal to the input length, so that
  every definition is a structural recursion that the kernel can evaluate.
-/

/-- Whitespace class of the JavaScript regex `\s` restricted to the ASCII
characters that occur in this development. -/
def jsWs (c : Char) : Bool :=
  c = ' ' || c = '\t' || c = '\n' || c = '\r' || c = '\x0b' || c = '\x0c'

/-- Newline class of the JavaScript regex character class `[\n\r]`. -/
def jsNl (c : Char) : Bool :=
  c = '\n' || c = '\r'

/-- JavaScript `String.prototype.toLowerCase`, on ASCII input. -/
def jsLower (s : String) : String :=
  ⟨s.data.map Char.toLower⟩

/-- JavaScript `String.prototype.trim`: drop whitespace on both ends. -/
def jsTrim (s : String) : String :=
  ⟨((s.data.dropWhile (fun c => jsWs c)).reverse.dropWhile (fun c => jsWs c)).reverse⟩

/-- JavaScript `String.prototype.substring(0, n)`. -/
def jsTake (n : Nat) (s : String) : String :=
  ⟨s.data.take n⟩

/-- Containment test on character lists: `needle` occurs contiguously in
`hay`.  Models `String.prototype.includes`. -/
def listHasSub (hay needle : List Char) : Bool :=
  match hay with
  | [] => needle.isEmpty
  | _ :: t => needle.isPrefixOf hay || listHasSub t needle

/-- JavaScript `hay.includes(needle)`. -/
def jsIncludes (hay needle : String) : Bool :=
  listHasSub hay.data needle.data

/-- Field splitter for the regex `\s+` (used via `split(/\s+/)`): fields
between maximal whitespace runs.  A leading or trailing run produces an
empty field, exactly as in JavaScript. -/
def splitWsAux : Nat → List Char → List Char → List String
  | _, [], acc => [⟨acc.reverse⟩]
  | 0, c :: rest, acc => [⟨acc.reverse ++ (c :: rest)⟩]
  | fuel + 1, c :: rest, acc =>
    if jsWs c then
      (⟨acc.reverse⟩ : String) :: splitWsAux fuel (rest.dropWhile (fun d => jsWs d)) []
    else
      splitWsAux fuel rest (c :: acc)

/-- JavaScript `s.split(/\s+/)`. -/
def jsSplitWs (s : String) : List String :=
  splitWsAux s.data.length s.data []

/-- One attempted match of the regex `\d+:\d+` at the head of the list;
returns the remainder after the match. -/
def tsMatch (l : List Char) : Option (List Char) :=
  let d1 := l.takeWhile Char.isDigit
  if d1.isEmpty then none
  else
    match l.drop d1.length with
    | ':' :: r2 =>
      let d2 := r2.takeWhile Char.isDigit
      if d2.isEmpty then none else some (r2.drop d2.length)
    | _ => none

/-- Global replacement `replace(/\d+:\d+/g, '')` on a character list,
with fuel. -/
def stripTsAux : Nat → List Char → List Char
  | _, [] => []
  | 0, c :: rest => c :: rest
  | fuel + 1, c :: rest =>
    match tsMatch (c :: rest) with
    | some rem => stripTsAux fuel rem
    | none => c :: stripTsAux fuel rest

/-- JavaScript `s.replace(/\d+:\d+/g, '')`. -/
def jsStripTimestamps (s : String) : String :=
  ⟨stripTsAux s.data.length s.data⟩

/-- A transcript timestamp segment (interface `TimestampSegment`). -/
structure TimestampSegment where
  text : String
  timestampDisplay : String
  timestampSeconds : Rat
  endSeconds : Rat
deriving DecidableEq, Repr

/-- Result of aligning one chunk (interface `TimestampMatch`). -/
structure TimestampMatch where
  startTime : Rat
  endTime : Rat
  matched : Bool
  timestampDisplay : Option String := none
deriving DecidableEq, Repr

/-- Segment fingerprint from `preprocessTimestampSegments`:
`text.replace(/\d+:\d+/g,'').trim().toLowerCase().split(/\s+/)
 .filter(w => w.length > 2).slice(0, 20).join(' ')`. -/
def segmentFingerprint (text : String) : String :=
  String.intercalate " "
    ((((jsSplitWs (jsLower (jsTrim (jsStripTimestamps text)))).filter
      (fun w => 2 < w.length)).take 20))

/-- The preprocessing pass: each segment is paired with its fingerprint. -/
def preprocessTimestampSegments (segments : List TimestampSegment) :
    List (TimestampSegment × String) :=
  segments.map (fun seg => (seg, segmentFingerprint seg.text))

/-- Chunk fingerprint from `matchChunkToTimestamp`:
`chunkText.toLowerCase().split(/\s+/).filter(w => w.length > 2)
 .slice(0, 20).join(' ')` — note: no timestamp stripping, no trim. -/
def chunkFingerprint (chunkText : String) : String :=
  String.intercalate " "
    (((jsSplitWs (jsLower chunkText)).filter (fun w => 2 < w.length)).take 20)

/-- The segment-scan condition of the matching loop:
`chunkFingerprint.includes(segmentFp.substring(0, 50)) ||
 segmentFp.includes(chunkFingerprint.substring(0, 50))`. -/
def fingerprintsMatch (chunkFp segFp : String) : Bool :=
  jsIncludes chunkFp (jsTake 50 segFp) || jsIncludes segFp (jsTake 50 chunkFp)

/-- The shared chunk-to-timestamp aligner `matchChunkToTimestamp`.  The
`for`-loop with `break` is the first segment, in original order, whose
fingerprint matches; on no match, proportional fallback positions are
used, with `totalDuration` the last segment's `endSeconds`. -/
def matchChunkToTimestamp (chunkText : String) (segments : List TimestampSegment)
    (chunkIndex totalChunks : Nat) : TimestampMatch :=
  if segments.isEmpty then
    { startTime := 0, endTime := 0, matched := false }
  else
    let preprocessed := preprocessTimestampSegments segments
    let chunkFp := chunkFingerprint chunkText
    match preprocessed.find? (fun p => fingerprintsMatch chunkFp p.2) with
    | some p =>
      { startTime := p.1.timestampSeconds, endTime := p.1.endSeconds,
        matched := true, timestampDisplay := some p.1.timestampDisplay }
    | none =>
      let chunkPosition : Rat := (chunkIndex : Rat) / (totalChunks : Rat)
      let totalDuration : Rat := (segments.getLast?.map (fun s => s.endSeconds)).getD 0
      { startTime := ((chunkPosition * totalDuration).floor : Int),
        endTime := (((chunkPosition + 1 / (totalChunks : Rat)) * totalDuration).floor : Int),
        matched := false }

/-- The aligner as the specification describes it, after amending the claim:
the segment fingerprint strips `\d+:\d+` patterns and trims before
lower-casing, while the chunk fingerprint only lower-cases and tokenizes;
first matching segment in scan order wins; otherwise proportional fallback
`start = floor((i/n)*D)`, `end = floor(((i+1)/n)*D)`; empty segment list
gives `{0, 0, false}`. -/
def alignAmendedSpec (chunkText : String) (segments : List TimestampSegment)
    (chunkIndex totalChunks : Nat) : TimestampMatch :=
  match segments with
  | [] => { startTime := 0, endTime := 0, matched := false }
  | _ =>
    match segments.find?
        (fun seg => fingerprintsMatch (chunkFingerprint chunkText) (segmentFingerprint seg.text)) with
    | some seg =>
      { startTime := seg.timestampSeconds, endTime := seg.endSeconds,
        matched := true, timestampDisplay := some seg.timestampDisplay }
    | none =>
      let totalDuration : Rat := (segments.getLast?.map (fun s => s.endSeconds)).getD 0
      { startTime := ((((chunkIndex : Rat) / (totalChunks : Rat)) * totalDuration).floor : Int),
        endTime := (((((chunkIndex : Rat) + 1) / (totalChunks : Rat)) * totalDuration).floor : Int),
        matched := false }

/-- The aligner exactly as claim C4 words it, used only to refute the claim:
both fingerprints are built "the same way", i.e. the chunk fingerprint also
strips timestamps and trims. -/
def alignClaimC4 (chunkText : String) (segments : List TimestampSegment)
    (chunkIndex totalChunks : Nat) : TimestampMatch :=
  match segments with
  | [] => { startTime := 0, endTime := 0, matched := false }
  | _ =>
    match segments.find?
        (fun seg => fingerprintsMatch (segmentFingerprint chunkText) (segmentFingerprint seg.text)) with
    | some seg =>
      { startTime := seg.timestampSeconds, endTime := seg.endSeconds,
        matched := true, timestampDisplay := some seg.timestampDisplay }
    | none =>
      let totalDuration : Rat := (segments.getLast?.map (fun s => s.endSeconds)).getD 0
      { startTime := ((((chunkIndex : Rat) / (totalChunks : Rat)) * totalDuration).floor : Int),
        endTime := (((((chunkIndex : Rat) + 1) / (totalChunks : Rat)) * totalDuration).floor : Int),
        matched := false }

def c4ChunkText : String := "12:34 hello world program"

def c4Segment : TimestampSegment :=
  { text := "hello world program extra", timestampDisplay := "1:40",
    timestampSeconds := 100, endSeconds := 200 }

def c5Seg0 : TimestampSegment :=
  { text := "alpha beta gamma", timestampDisplay := "0:00",
    timestampSeconds := 0, endSeconds := 100 }

def c5Seg1 : TimestampSegment :=
  { text := "delta epsilon zeta", timestampDisplay := "1:40",
    timestampSeconds := 100, endSeconds := 110 }

def c5Segs : List TimestampSegment := [c5Seg0, c5Seg1]

/-- Provenance tag of a search result (`source` field in
`src/lib/hybrid-search.ts`). -/
inductive SearchSource where
  | semantic
  | keyword
  | hybrid
deriving DecidableEq, Repr

/-- The metadata carried by a `SearchResult` (only the fields that the
fusion code reads or writes are modelled). -/
structure SearchMeta where
  videoId : String
  chunkIndex : Nat
deriving DecidableEq, Repr

/-- A hybrid-search result (`interface SearchResult`). -/
structure SearchResult where
  text : String
  score : Rat
  source : SearchSource
  metadata : SearchMeta
deriving DecidableEq, Repr

/-- The first 100 characters of a string: the deduplication key
`result.text.substring(0, 100)`. -/
def first100 (s : String) : List Char :=
  s.data.take 100

/-- The deduplication filter of `fuseAndRankResults`:
`allResults.filter((result, index, array) => !array.slice(0, index).some(
   prev => prev.text.substring(0,100) === result.text.substring(0,100)))`.
The `seen` parameter is `array.slice(0, index)`: every earlier element,
kept or not. -/
def dedupSeenAux (seen : List SearchResult) : List SearchResult → List SearchResult
  | [] => []
  | r :: rest =>
    if seen.any (fun prev => decide (first100 prev.text = first100 r.text)) then
      dedupSeenAux (seen ++ [r]) rest
    else
      r :: dedupSeenAux (seen ++ [r]) rest

/-- Deduplication by the first 100 characters of the text, keeping the
first occurrence. -/
def dedupByTextStart (l : List SearchResult) : List SearchResult :=
  dedupSeenAux [] l

/-- The keyword-overlap count of `fuseAndRankResults`:
`query.toLowerCase().split(/\s+/).filter(word => word.length > 2 &&
 result.text.toLowerCase().includes(word)).length`.  Query words are counted
with multiplicity. -/
def keywordOverlapCount (query text : String) : Nat :=
  ((jsSplitWs (jsLower query)).filter
    (fun word => 2 < word.length && jsIncludes (jsLower text) word)).length

/-- The count claim C7 prescribes: the same, but over distinct query words.
Used only to refute the claim as stated. -/
def distinctKeywordOverlapCount (query text : String) : Nat :=
  (((jsSplitWs (jsLower query)).eraseDups).filter
    (fun word => 2 < word.length && jsIncludes (jsLower text) word)).length

/-- The per-result scoring step of `fuseAndRankResults`: weight by source
(0.7 semantic, 0.3 keyword), then boost by 10% per keyword match, and
retag the source as `hybrid`. -/
def applyHybridScore (query : String) (r : SearchResult) : SearchResult :=
  let base : Rat :=
    if r.source = SearchSource.semantic then r.score * (7 / 10)
    else if r.source = SearchSource.keyword then r.score * (3 / 10)
    else r.score
  let hits := keywordOverlapCount query r.text
  let score : Rat :=
    if 0 < hits then base * (1 + (hits : Rat) * (1 / 10)) else base
  { r with score := score, source := SearchSource.hybrid }

/-- The comparator of `.sort((a, b) => b.score - a.score)`, as the relation
"a sorts no later than b": scores descending. -/
def scoreGE (a b : SearchResult) : Prop :=
  b.score ≤ a.score

instance : DecidableRel scoreGE :=
  fun a b => inferInstanceAs (Decidable (b.score ≤ a.score))

instance : IsTotal SearchResult scoreGE :=
  ⟨fun a b => le_total b.score a.score⟩

instance : IsTrans SearchResult scoreGE :=
  ⟨fun _ _ _ h1 h2 => le_trans h2 h1⟩

/-- `fuseAndRankResults` from `src/lib/hybrid-search.ts`: concatenate
semantic then keyword results, deduplicate by the first 100 characters of
the text keeping the first occurrence, apply the hybrid score, sort by
score descending (ECMAScript sort is stable, modelled by the stable
`insertionSort` with `scoreGE`), and truncate to `limit`. -/
def fuseAndRankResults (semanticResults keywordResults : List SearchResult)
    (query : String) (limit : Nat) : List SearchResult :=
  let allResults := semanticResults ++ keywordResults
  let uniqueResults := dedupByTextStart allResults
  let scoredResults := uniqueResults.map (applyHybridScore query)
  (scoredResults.insertionSort scoreGE).take limit

/-- The pure result-construction part of `performSemanticSearch`: the
chunk texts returned by the vector store are scored by rank position,
`0.8 - index * 0.05`, tagged `semantic`, with placeholder metadata. -/
def semanticResultsAux (i : Nat) : List String → List SearchResult
  | [] => []
  | t :: ts =>
    { text := t, score := 4 / 5 - (i : Rat) * (1 / 20),
      source := SearchSource.semantic,
      metadata := { videoId := "unknown", chunkIndex := i } } :: semanticResultsAux (i + 1) ts

/-- Semantic search results built from ranked chunk texts. -/
def semanticResultsFromChunks (chunks : List String) : List SearchResult :=
  semanticResultsAux 0 chunks

def c10Sem : SearchResult :=
  { text := "hello world", score := 1, source := SearchSource.semantic,
    metadata := { videoId := "v1", chunkIndex := 0 } }

def c10Kw : SearchResult :=
  { text := "hello world", score := 2, source := SearchSource.keyword,
    metadata := { videoId := "v2", chunkIndex := 3 } }

def c7Sem : SearchResult :=
  { text := "cat", score := 4 / 5, source := SearchSource.semantic,
    metadata := { videoId := "unknown", chunkIndex := 0 } }

def c8Texts : List String :=
  ["alpha first", "bravo second", "charlie third", "delta fourth", "echo fifth",
   "foxtrot sixth", "golf seventh", "hotel eighth", "india ninth",
   "zebra stripes pattern"]

def c8Kw : List SearchResult :=
  [{ text := "zebra stripes pattern", score := 2, source := SearchSource.keyword,
     metadata := { videoId := "v", chunkIndex := 9 } }]

def c8WitnessRest : List String :=
  ["alpha first", "bravo second", "charlie third", "delta fourth", "echo fifth",
   "foxtrot sixth", "golf seventh", "hotel eighth", "india ninth"]

/-- Token estimation from `src/lib/rag.ts`: `Math.ceil(text.length / 4)`. -/
def estimateTokens (text : String) : Nat :=
  (text.length + 3) / 4

/-- Sentence-ending punctuation class of the split regex `[.!?;]\s+`. -/
def isSentencePunct (c : Char) : Bool :=
  c = '.' || c = '!' || c = '?' || c = ';'

/-- Lookahead: the next character exists and is whitespace. -/
def headIsWs : List Char → Bool
  | d :: _ => jsWs d
  | [] => false

/-- Field splitter for `split(/[.!?;]\s+|[\n\r]+/)`: a separator is either a
punctuation character followed by a maximal whitespace run, or a maximal
run of newline characters (the first alternative is tried first, as the
regex engine does). -/
def splitSentAux : Nat → List Char → List Char → List String
  | _, [], acc => [⟨acc.reverse⟩]
  | 0, c :: rest, acc => [⟨acc.reverse ++ (c :: rest)⟩]
  | fuel + 1, c :: rest, acc =>
    if isSentencePunct c && headIsWs rest then
      (⟨acc.reverse⟩ : String) :: splitSentAux fuel (rest.dropWhile (fun d => jsWs d)) []
    else if jsNl c then
      (⟨acc.reverse⟩ : String) :: splitSentAux fuel (rest.dropWhile (fun d => jsNl d)) []
    else
      splitSentAux fuel rest (c :: acc)

/-- JavaScript `text.split(/[.!?;]\s+|[\n\r]+/)`. -/
def jsSplitSentences (s : String) : List String :=
  splitSentAux s.data.length s.data []

/-- Index of the last literal newline in a character list, used to model
the greedy backtracking of `\n\s*\n`. -/
def lastIdxNl (l : List Char) : Option Nat :=
  ((l.enum.filter (fun p => p.2 = '\n')).map Prod.fst).getLast?

/-- Field splitter for `split(/\n\s*\n/)`: a separator is a newline, a
whitespace run, and a final newline (the greedy `\s*` backtracks to the
last newline inside the run). -/
def splitParaAux : Nat → List Char → List Char → List String
  | _, [], acc => [⟨acc.reverse⟩]
  | 0, c :: rest, acc => [⟨acc.reverse ++ (c :: rest)⟩]
  | fuel + 1, c :: rest, acc =>
    if c = '\n' then
      match lastIdxNl (rest.takeWhile (fun d => jsWs d)) with
      | some j => (⟨acc.reverse⟩ : String) :: splitParaAux fuel (rest.drop (j + 1)) []
      | none => splitParaAux fuel rest (c :: acc)
    else
      splitParaAux fuel rest (c :: acc)

/-- JavaScript `text.split(/\n\s*\n/)`. -/
def jsSplitParagraphs (s : String) : List String :=
  splitParaAux s.data.length s.data []

/-- The word-window fallback of `chunkText`: fixed-size word windows with
10% overlap; a window is kept if its joined text is longer than 50
characters.  The fuel argument bounds the loop (the JavaScript loop would
not terminate if the step were 0, which cannot happen for the default
budget of 400 tokens). -/
def wordWindowsAux (words : List String) (wordsPerChunk step : Nat) :
    Nat → Nat → List String
  | 0, _ => []
  | fuel + 1, i =>
    if i < words.length then
      let chunk := String.intercalate " " ((words.drop i).take wordsPerChunk)
      (if 50 < chunk.length then [chunk] else [])
        ++ wordWindowsAux words wordsPerChunk step fuel (i + step)
    else []

/-- The sentence list that `chunkText` accumulates: sentence split, then
paragraph split if at most 2 sentences survive, then word windows if at
most 1 survives.  `floor(maxTokens * 0.7)` and the 10% overlap are exact
integer computations for every budget used by the code. -/
def sentencesOf (text : String) (maxTokens : Nat) : List String :=
  let sentences1 := (jsSplitSentences text).filter (fun s => 10 < (jsTrim s).length)
  let sentences2 :=
    if sentences1.length ≤ 2 then
      (jsSplitParagraphs text).filter (fun s => 10 < (jsTrim s).length)
    else sentences1
  if sentences2.length ≤ 1 then
    let words := jsSplitWs text
    let wordsPerChunk := maxTokens * 7 / 10
    let overlapWords := wordsPerChunk / 10
    wordWindowsAux words wordsPerChunk (wordsPerChunk - overlapWords) (words.length + 1) 0
  else sentences2

/-- The candidate chunk `currentChunk ? currentChunk + " " + t : t`. -/
def joinChunk (cur t : String) : String :=
  if cur = "" then t else ⟨cur.data ++ (' ' :: t.data)⟩

/-- The accumulation loop of `chunkText`: grow `currentChunk` while the
estimated token count stays under 80% of the budget (`tokens * 5 <
maxTokens * 4` is `tokens < maxTokens * 0.8` in exact arithmetic) and the
test chunk stays under the 2500-character ceiling; otherwise flush the
current chunk if it exceeds 100 characters and restart from the trimmed
sentence.  The final chunk is flushed under the same 100-character
condition. -/
def buildChunks (maxTokens : Nat) : List String → String → List String
  | [], cur => if 100 < cur.length then [cur] else []
  | s :: rest, cur =>
    let test := joinChunk cur (jsTrim s)
    if estimateTokens test * 5 < maxTokens * 4 && test.length < 2500 then
      buildChunks maxTokens rest test
    else
      (if 100 < cur.length then [cur] else []) ++ buildChunks maxTokens rest (jsTrim s)

/-- `chunkText` from `src/lib/rag.ts`: rejects input under 50 characters,
otherwise accumulates the computed sentence list into chunks. -/
def chunkText (text : String) (maxTokens : Nat := 400) : List String :=
  if text.length < 50 then []
  else buildChunks maxTokens (sentencesOf text maxTokens) ""

def c9SentA : String := ⟨List.replicate 101 'x'⟩

def c9SentB : String := ⟨List.replicate 2501 'y'⟩

def c9SentC : String := ⟨List.replicate 101 'z'⟩

def c9Text : String :=
  ⟨c9SentA.data ++ ('.' :: ' ' :: (c9SentB.data ++ ('.' :: ' ' :: c9SentC.data)))⟩

/-- Metadata stored with each Pinecone vector in
`storeTranscriptChunks` (`src/lib/pinecone.ts`).  The wall-clock
`createdAt` field is omitted (it never participates in identity or
lookup). -/
structure PineconeMetaRec where
  creatorId : String
  videoId : String
  chunkIndex : Nat
  text : String
  videoTitle : String
  startTime : Rat
  endTime : Rat
deriving DecidableEq, Repr

/-- A Pinecone record: embedding values plus metadata. -/
structure PineconeVector where
  values : List Rat
  metadata : PineconeMetaRec
deriving DecidableEq, Repr

/-- The vector index modelled as an association list from record id to
record; `upsert` replaces the record when the id is present and appends it
otherwise. -/
abbrev PineconeStore : Type := List (String × PineconeVector)

/-- One `upsert` of a single record. -/
def upsertVector (store : PineconeStore) (id : String) (v : PineconeVector) :
    PineconeStore :=
  if (List.any store (fun p => p.1 = id)) then
    List.map (fun p => if p.1 = id then (id, v) else p) store
  else
    List.append store [(id, v)]

/-- Upserting a list of records in order.  The code uploads in batches of
100 with an inter-batch delay; batching preserves record order, so the
final state is the same fold. -/
def upsertAll (store : PineconeStore) (vs : List (String × PineconeVector)) :
    PineconeStore :=
  vs.foldl (fun st p => upsertVector st p.1 p.2) store

/-- A chunk with its embedding (the `chunksWithEmbeddings` entries of
`storeTranscriptChunks` in `src/lib/rag.ts`). -/
structure EmbeddedChunk where
  text : String
  embedding : List Rat
  chunkIndex : Nat
  videoTitle : Option String
  startTime : Option Rat
  endTime : Option Rat
deriving DecidableEq, Repr

/-- The deterministic vector id
`${creatorId}_${videoId}_${chunk.chunkIndex}`. -/
def pineconeVectorId (creatorId videoId : String) (chunkIndex : Nat) : String :=
  creatorId ++ "_" ++ videoId ++ "_" ++ toString chunkIndex

/-- `storeTranscriptChunks` from `src/lib/pinecone.ts` (state effect on the
index): build one record per chunk, id keyed on creator/video/chunkIndex,
text truncated to 5000 characters, and upsert them all. -/
def pineconeStoreTranscriptChunks (store : PineconeStore)
    (creatorId videoId : String) (chunks : List EmbeddedChunk) : PineconeStore :=
  if chunks = [] then store
  else
    upsertAll store (chunks.map (fun ch =>
      (pineconeVectorId creatorId videoId ch.chunkIndex,
       { values := ch.embedding,
         metadata :=
           { creatorId := creatorId, videoId := videoId,
             chunkIndex := ch.chunkIndex, text := jsTake 5000 ch.text,
             videoTitle := ch.videoTitle.getD "",
             startTime := ch.startTime.getD 0,
             endTime := ch.endTime.getD 0 } })))

/-- A LangChain `Document` as consumed by `storeTranscriptChunks` in
`src/lib/rag.ts`: page content plus the timestamp metadata the chunker
attached. -/
structure ChunkDoc where
  pageContent : String
  startTime : Option Rat
  endTime : Option Rat
deriving DecidableEq, Repr

/-- Metadata of a MongoDB `transcript_chunks` document. -/
structure MongoChunkMeta where
  contentType : String
  videoTitle : Option String
  videoUrl : Option String
  thumbnailUrl : Option String
  startTime : Rat
  endTime : Rat
  duration : Option Rat
deriving DecidableEq, Repr

/-- A MongoDB `transcript_chunks` document (the `createdAt` wall-clock
field is omitted). -/
structure MongoChunkDoc where
  creatorId : String
  videoId : String
  chunkIndex : Nat
  text : String
  metadata : MongoChunkMeta
deriving DecidableEq, Repr

/-- The embedding loop of `storeTranscriptChunks` (`src/lib/rag.ts`):
empty chunks are skipped (but still consume their index), an empty
embedding aborts the whole call. -/
def embedChunks (embed : String → List Rat) (videoTitle : Option String) :
    List ChunkDoc → Nat → Except String (List EmbeddedChunk)
  | [], _ => Except.ok []
  | d :: rest, i =>
    if d.pageContent.length = 0 then embedChunks embed videoTitle rest (i + 1)
    else
      let e := embed d.pageContent
      if e = [] then
        Except.error ("Embedding creation failed for chunk " ++ toString i)
      else
        match embedChunks embed videoTitle rest (i + 1) with
        | Except.error msg => Except.error msg
        | Except.ok tail =>
          Except.ok ({ text := d.pageContent, embedding := e, chunkIndex := i,
                       videoTitle := videoTitle, startTime := d.startTime,
                       endTime := d.endTime } :: tail)

/-- The metadata documents built by `storeTranscriptChunks` in
`src/lib/rag.ts` for the MongoDB `insertMany`: one per embedded chunk,
timestamps resolved through `matchChunkToTimestamp`. -/
def ragDocuments (creatorId videoId : String)
    (videoTitle videoUrl thumbnailUrl : Option String)
    (timestampSegments : List TimestampSegment)
    (chunksWithEmbeddings : List EmbeddedChunk) : List MongoChunkDoc :=
  chunksWithEmbeddings.map (fun ch =>
    let tm := matchChunkToTimestamp ch.text timestampSegments ch.chunkIndex
      chunksWithEmbeddings.length
    { creatorId := creatorId, videoId := videoId, chunkIndex := ch.chunkIndex,
      text := ch.text,
      metadata :=
        { contentType := "video_transcript", videoTitle := videoTitle,
          videoUrl := videoUrl, thumbnailUrl := thumbnailUrl,
          startTime := tm.startTime, endTime := tm.endTime,
          duration := if tm.startTime ≠ 0 ∧ tm.endTime ≠ 0 then
              some (tm.endTime - tm.startTime)
            else none } })

/-- The two storage writes of `storeTranscriptChunks`, sequenced after the
embedding loop: Pinecone upserts replace-by-id, the MongoDB `insertMany`
appends. -/
def ragStoreTranscriptChunks (embed : String → List Rat)
    (pc : PineconeStore) (mongo : List MongoChunkDoc)
    (creatorId videoId : String) (docs : List ChunkDoc)
    (videoTitle videoUrl thumbnailUrl : Option String)
    (timestampSegments : List TimestampSegment) :
    Except String (PineconeStore × List MongoChunkDoc) :=
  if docs = [] then Except.error ("No chunks provided for storage")
  else
    Except.bind (embedChunks embed videoTitle docs 0) (fun chunksWithEmbeddings =>
      if chunksWithEmbeddings = [] then
        Except.error ("No valid embeddings created from chunks")
      else
        Except.ok
          (pineconeStoreTranscriptChunks pc creatorId videoId chunksWithEmbeddings,
           List.append mongo (ragDocuments creatorId videoId videoTitle videoUrl
             thumbnailUrl timestampSegments chunksWithEmbeddings)))

/-- Number of records in the vector store carrying a given id. -/
def countKey (store : PineconeStore) (id : String) : Nat :=
  (List.filter (fun p => decide (p.1 = id)) store).length

/-- Number of metadata documents carrying a given chunk identity. -/
def countMongoId (mongo : List MongoChunkDoc) (creatorId videoId : String)
    (chunkIndex : Nat) : Nat :=
  (mongo.filter (fun d =>
    decide (d.creatorId = creatorId ∧ d.videoId = videoId ∧ d.chunkIndex = chunkIndex))).length

/-- Decidable equality for `Except`, used to evaluate concrete runs of the
storage pipeline. -/
instance {e a : Type} [DecidableEq e] [DecidableEq a] : DecidableEq (Except e a) :=
  fun x y =>
    match x, y with
    | Except.error e1, Except.error e2 =>
        if h : e1 = e2 then isTrue (by rw [h]) else
          isFalse (fun hc => h (Except.error.injEq e1 e2 ▸ hc))
    | Except.error _, Except.ok _ => isFalse (fun hc => Except.noConfusion hc)
    | Except.ok _, Except.error _ => isFalse (fun hc => Except.noConfusion hc)
    | Except.ok a1, Except.ok a2 =>
        if h : a1 = a2 then isTrue (by rw [h]) else
          isFalse (fun hc => h (Except.ok.injEq a1 a2 ▸ hc))

def c6embed : String → List Rat := fun _ => [1]

def c6doc : ChunkDoc :=
  { pageContent := "hello world transcript chunk", startTime := some 1, endTime := some 5 }

def c6vec : PineconeVector :=
  { values := [1],
    metadata :=
      { creatorId := "creator1", videoId := "video1", chunkIndex := 0,
        text := "hello world transcript chunk", videoTitle := "",
        startTime := 1, endTime := 5 } }

def c6mongoDoc : MongoChunkDoc :=
  { creatorId := "creator1", videoId := "video1", chunkIndex := 0,
    text := "hello world transcript chunk",
    metadata :=
      { contentType := "video_transcript", videoTitle := none, videoUrl := none,
        thumbnailUrl := none, startTime := 0, endTime := 0, duration := none } }

/-- One `ChannelAIProcessing` document (the fields the duplicate check and
the status writes touch). -/
structure ChannelAIProcRec where
  channelId : String
  teamId : String
  jobId : String
  status : String
deriving DecidableEq, Repr

/-- The duplicate check of `POST /creator` (`src/routes/health.ts`):
`findOne({ channelId, teamId, status: 'processing' })`. -/
def findOngoing (db : List ChannelAIProcRec) (channelId teamId : String) :
    Option ChannelAIProcRec :=
  db.find? (fun r =>
    r.channelId = channelId ∧ r.teamId = teamId ∧ r.status = "processing")

/-- The status write at the start of `processVideosAsync`:
`updateOne({ channelId, teamId, jobId }, { $set: ...status processing... },
{ upsert: true })`. -/
def upsertProcessing (db : List ChannelAIProcRec)
    (channelId teamId jobId : String) : List ChannelAIProcRec :=
  if db.any (fun r => r.channelId = channelId ∧ r.teamId = teamId ∧ r.jobId = jobId) then
    db.map (fun r =>
      if r.channelId = channelId ∧ r.teamId = teamId ∧ r.jobId = jobId then
        { r with status := "processing" }
      else r)
  else
    db ++ [{ channelId := channelId, teamId := teamId, jobId := jobId,
             status := "processing" }]

/-- `RedisJobStore.markChannelProcessing` (`src/lib/quota-middleware.ts`):
`SET yt-processor:processing:channelId:teamId jobId EX 86400 NX` - an
exclusive, auto-expiring lock that succeeds only when the key is absent.
This method exists in the source but has NO call site anywhere in the
repository; the route relies solely on the `findOne` duplicate check. -/
def markChannelProcessing (locks : List (String × String))
    (channelId teamId jobId : String) : List (String × String) × Bool :=
  let key := "yt-processor:" ++ "processing:" ++ channelId ++ ":" ++ teamId
  if locks.any (fun p => p.1 = key) then (locks, false)
  else (locks ++ [(key, jobId)], true)

/-- Phase of one ingestion request for a fixed `(channelId, teamId)`:
before the duplicate check, past the check (202 returned, async task about
to start), entered `processing` (status written), or rejected with 409. -/
inductive ReqPhase where
  | start
  | passedCheck
  | entered
  | rejected409
deriving DecidableEq, Repr

/-- Two concurrent ingestion requests A and B for the same pair, plus the
shared `ChannelAIProcessing` collection. -/
structure IngestState where
  db : List ChannelAIProcRec
  phaseA : ReqPhase
  phaseB : ReqPhase
deriving DecidableEq, Repr

/-- One atomic step of a single request: the duplicate check (route lines
272-296), then - asynchronously, after the route already returned 202 -
the `processing` upsert (processVideosAsync lines 579-615).  The two steps
are separate awaited database calls, so steps of concurrent requests
interleave. -/
def reqStep (channelId teamId jobId : String) (db : List ChannelAIProcRec)
    (ph : ReqPhase) : List ChannelAIProcRec × ReqPhase :=
  match ph with
  | ReqPhase.start =>
    match findOngoing db channelId teamId with
    | some _ => (db, ReqPhase.rejected409)
    | none => (db, ReqPhase.passedCheck)
  | ReqPhase.passedCheck => (upsertProcessing db channelId teamId jobId, ReqPhase.entered)
  | ph2 => (db, ph2)

/-- Scheduler step: `true` advances request A (job id `jobA`), `false`
advances request B (job id `jobB`). -/
def c1Step (channelId teamId jobA jobB : String) (s : IngestState) (who : Bool) :
    IngestState :=
  if who then
    let r := reqStep channelId teamId jobA s.db s.phaseA
    { db := r.1, phaseA := r.2, phaseB := s.phaseB }
  else
    let r := reqStep channelId teamId jobB s.db s.phaseB
    { db := r.1, phaseA := s.phaseA, phaseB := r.2 }

/-- Run a schedule of interleaved steps. -/
def runIngest (channelId teamId jobA jobB : String) (sched : List Bool)
    (s : IngestState) : IngestState :=
  sched.foldl (c1Step channelId teamId jobA jobB) s

/-- Number of `processing` documents for a pair. -/
def countProcessingPair (db : List ChannelAIProcRec) (channelId teamId : String) :
    Nat :=
  (db.filter (fun r =>
    r.channelId = channelId ∧ r.teamId = teamId ∧ r.status = "processing")).length

/-- The per-video data the eligibility gate of `processVideosAsync` reads
(`durationMinutes || 0` is folded in by using 0 for a missing value). -/
structure VideoInfo where
  hasCaptions : Bool
  durationMinutes : Rat
deriving DecidableEq, Repr

/-- `videos.filter(v => v.hasCaptions).length`. -/
def videosWithCaptions (videos : List VideoInfo) : Nat :=
  (videos.filter (fun v => v.hasCaptions)).length

/-- `videos.filter(v => duration >= 2 && duration <= 25).length`. -/
def videosWithValidDuration (videos : List VideoInfo) : Nat :=
  (videos.filter (fun v =>
    decide (2 ≤ v.durationMinutes) && decide (v.durationMinutes ≤ 25))).length

/-- `videos.filter(v => v.hasCaptions && duration >= 2 && duration <= 25).length`. -/
def videosEligibleForProcessing (videos : List VideoInfo) : Nat :=
  (videos.filter (fun v =>
    v.hasCaptions && decide (2 ≤ v.durationMinutes) && decide (v.durationMinutes ≤ 25))).length

/-- JS truthiness of `desc && desc.length > 50`: an absent description or
one of at most 50 characters is unusable. -/
def descUsable : Option String → Bool
  | none => false
  | some s => 50 < s.length

/-- The generic error thrown by the early eligibility gate
(`src/routes/health.ts` lines 688-705). -/
def genericEligibilityMsg : String :=
  "No eligible videos found. Your videos must be between 2-25 minutes long with captions enabled. To proceed without eligible videos, please provide a custom description when creating the bot (or add a detailed channel description on YouTube)."

/-- The specific error builder of the later gate (`src/routes/health.ts`
lines 736-756), which distinguishes no-captions, wrong-duration, and
no-overlap. -/
def specificEligibilityMessage (withCaptions withValidDuration : Nat) : String :=
  if withCaptions = 0 ∧ withValidDuration = 0 then
    "Channel not eligible: No videos with captions AND no videos between 2-25 minutes in length. Requirements:\n• Videos must have captions/transcripts enabled\n• Videos must be between 2-25 minutes long\nOR provide a custom description when creating the bot."
  else if withCaptions = 0 then
    "Channel not eligible: Found " ++ toString withValidDuration ++ " video(s) with valid duration (2-25 min), but NONE have captions/transcripts. YouTube auto-generates captions after 10-30 minutes. Please enable captions or provide a custom description."
  else if withValidDuration = 0 then
    "Channel not eligible: Found " ++ toString withCaptions ++ " video(s) with captions, but NONE are between 2-25 minutes in length. We only process videos between 2-25 minutes. Please ensure you have videos in this duration range or provide a custom description."
  else
    "Channel not eligible: Found " ++ toString withCaptions ++ " video(s) with captions and " ++ toString withValidDuration ++ " video(s) with valid duration, but NO overlap. Videos need BOTH captions AND be 2-25 minutes long. Please provide a custom description to proceed."

/-- The eligibility gate of `processVideosAsync` as a message-producing
function: `some msg` means the job throws (and is marked `failed`) with
`msg`.  The source has TWO gates in sequence: the early generic throw
(lines 688-705) and the later specific-message throw (lines 736-770); both
are guarded by the same conjunction up to reordering. -/
def processEligibility (videos : List VideoInfo)
    (customDescription channelDescription wikipediaSummary : Option String) :
    Option String :=
  if videosEligibleForProcessing videos = 0 ∧ descUsable customDescription = false
      ∧ descUsable channelDescription = false ∧ descUsable wikipediaSummary = false then
    some genericEligibilityMsg
  else if videosEligibleForProcessing videos = 0 ∧ descUsable channelDescription = false
      ∧ descUsable customDescription = false ∧ descUsable wikipediaSummary = false then
    some (specificEligibilityMessage (videosWithCaptions videos)
      (videosWithValidDuration videos))
  else
    none

/-- `const PROCESSING_TIMEOUT_MS = 30 * 60 * 1000` (`src/routes/health.ts`
line 133). -/
def PROCESSING_TIMEOUT_MS : Nat := 30 * 60 * 1000

/-- Job status as written into the job store. -/
inductive JobStatus where
  | queued
  | processing
  | completed
  | failed
deriving DecidableEq, Repr

/-- `processVideosAsyncWithTimeout` (`src/routes/health.ts` lines
525-553), modelled by its observable outcome.  `Promise.race` rejects
after `PROCESSING_TIMEOUT_MS` when the task takes longer, but the `catch`
block only LOGS the error ("Processing failed or timed out"); it writes no
job status, updates no `ChannelAIProcessing` record, and cancels nothing,
so the task keeps running and the job record's final status is whatever
the task itself eventually writes (`taskFinal`).  The model returns that
final status together with the optional timeout log message. -/
def processVideosAsyncWithTimeout (taskDurationMs : Nat) (taskFinal : JobStatus) :
    JobStatus × Option String :=
  (taskFinal,
   if PROCESSING_TIMEOUT_MS < taskDurationMs then
     some ("Processing timeout: Job exceeded maximum time limit of "
       ++ toString (PROCESSING_TIMEOUT_MS / 60000) ++ " minutes")
   else none)

theorem find?_map_pair (segments : List TimestampSegment)
    (p : TimestampSegment × String → Bool) :
    (preprocessTimestampSegments segments).find? p
      = (segments.find? (fun seg => p (seg, segmentFingerprint seg.text))).map
          (fun seg => (seg, segmentFingerprint seg.text)) := by
  induction segments with
  | nil => rfl
  | cons s rest ih =>
    by_cases h : p (s, segmentFingerprint s.text)
    · simp [preprocessTimestampSegments, List.find?, h]
    · simpa [preprocessTimestampSegments, List.find?, h] using ih

/-- C4 (amended): `matchChunkToTimestamp` behaves exactly as the amended
description: the segment fingerprint is built by stripping `\d+:\d+`
timestamp patterns, trimming, lower-casing, whitespace-tokenizing, dropping
tokens of length at most 2 and joining the first 20 tokens, while the chunk
fingerprint is built the same way except that it neither strips timestamp
patterns nor trims; a chunk matches a segment iff the first 50 characters of
either fingerprint are a substring of the other; the first matching segment
in scan order supplies startTime/endTime with matched = true; otherwise the
proportional fallback start = floor((i/n)*D), end = floor(((i+1)/n)*D) with
D the last segment's end time; and an empty segment list yields
(0, 0, false). -/
theorem C4_aligner_eq_amended_spec (chunkText : String)
    (segments : List TimestampSegment) (chunkIndex totalChunks : Nat) :
    matchChunkToTimestamp chunkText segments chunkIndex totalChunks
      = alignAmendedSpec chunkText segments chunkIndex totalChunks := by
  cases segments with
  | nil => rfl
  | cons s rest =>
    simp only [matchChunkToTimestamp, alignAmendedSpec, List.isEmpty_cons,
      Bool.false_eq_true, if_false, find?_map_pair]
    cases (s :: rest).find?
        (fun seg => fingerprintsMatch (chunkFingerprint chunkText) (segmentFingerprint seg.text)) with
    | none =>
      have hdiv : (chunkIndex : Rat) / (totalChunks : Rat) + 1 / (totalChunks : Rat)
          = ((chunkIndex : Rat) + 1) / (totalChunks : Rat) := div_add_div_same _ _ _
      simp only [Option.map_none', hdiv]
    | some seg =>
      simp only [Option.map_some']

theorem ratFloor_eq_intFloor (q : Rat) : q.floor = ⌊q⌋ := by
  rw [Rat.floor_def', Rat.floor_def]

theorem ratFloor_cast_eval (q : Rat) (z : Int) (h : q = (z : Rat)) :
    ((q.floor : Int) : Rat) = (z : Rat) := by
  rw [h, ratFloor_eq_intFloor, Int.floor_intCast]

/-- C4 (counterexample): on the chunk text "12:34 hello world program" and a
single segment "hello world program extra" (100s-200s), the code leaves the
chunk unmatched and falls back to proportional positions (0, 200), while the
claim's algorithm - which builds both fingerprints "the same way", stripping
timestamps from the chunk as well - matches the segment and returns
(100, 200, matched = true).  So the claim, as stated, is false on the code. -/
theorem C4_counterexample :
    matchChunkToTimestamp c4ChunkText [c4Segment] 0 1
        = { startTime := 0, endTime := 200, matched := false }
      ∧ alignClaimC4 c4ChunkText [c4Segment] 0 1
        = { startTime := 100, endTime := 200, matched := true,
            timestampDisplay := some "1:40" } := by
  constructor
  · have hfm : fingerprintsMatch (chunkFingerprint c4ChunkText)
        (segmentFingerprint c4Segment.text) = false := by decide
    simp only [matchChunkToTimestamp, preprocessTimestampSegments, List.map_cons,
      List.map_nil, List.find?_cons, hfm, List.find?_nil, List.isEmpty_cons,
      Bool.false_eq_true, if_false, List.getLast?_singleton, Option.map_some',
      Option.getD_some, TimestampMatch.mk.injEq]
    refine ⟨?_, ?_, trivial, trivial⟩
    · exact ratFloor_cast_eval _ 0 (by norm_num)
    · exact ratFloor_cast_eval _ 200 (by push_cast; norm_num [c4Segment])
  · have hfm : fingerprintsMatch (segmentFingerprint c4ChunkText)
        (segmentFingerprint c4Segment.text) = true := by decide
    simp only [alignClaimC4]
    rw [List.find?_cons_of_pos _ (by exact hfm)]
    simp [c4Segment]

/-- C5 (amended): startTime values are non-decreasing in chunk index order
for the chunks that the aligner resolves by the proportional fallback (no
fingerprint match), provided the last segment's end time is non-negative.
For chunks resolved by a fingerprint match the startTime can decrease, so
the original claim fails (see the counterexample). -/
theorem C5_fallback_startTime_monotone
    (segments : List TimestampSegment) (c1 c2 : String) (i j n : Nat)
    (hij : i ≤ j)
    (hD : (0 : Rat) ≤ ((segments.getLast?.map (fun s => s.endSeconds)).getD 0))
    (h1 : (matchChunkToTimestamp c1 segments i n).matched = false)
    (h2 : (matchChunkToTimestamp c2 segments j n).matched = false) :
    (matchChunkToTimestamp c1 segments i n).startTime
      ≤ (matchChunkToTimestamp c2 segments j n).startTime := by
  have hfl : ∀ q : Rat, q.floor = ⌊q⌋ := fun q => by rw [Rat.floor_def', Rat.floor_def]
  cases segments with
  | nil => simp [matchChunkToTimestamp]
  | cons s rest =>
    rcases hf1 : (preprocessTimestampSegments (s :: rest)).find?
        (fun p => fingerprintsMatch (chunkFingerprint c1) p.2) with _ | p1
    · rcases hf2 : (preprocessTimestampSegments (s :: rest)).find?
          (fun p => fingerprintsMatch (chunkFingerprint c2) p.2) with _ | p2
      · simp only [matchChunkToTimestamp, List.isEmpty_cons, Bool.false_eq_true,
          if_false, hf1, hf2]
        have hdiv : (i : Rat) / (n : Rat) ≤ (j : Rat) / (n : Rat) := by
          rcases Nat.eq_zero_or_pos n with h0 | hpos
          · subst h0; simp
          · have hn : (0 : Rat) < (n : Rat) := by exact_mod_cast hpos
            exact (div_le_div_iff_of_pos_right hn).mpr (by exact_mod_cast hij)
        have hmul := mul_le_mul_of_nonneg_right hdiv hD
        rw [hfl, hfl]
        exact_mod_cast Int.floor_le_floor hmul
      · exfalso
        simp only [matchChunkToTimestamp, List.isEmpty_cons, Bool.false_eq_true,
          if_false, hf2] at h2
        exact absurd h2 (by decide)
    · exfalso
      simp only [matchChunkToTimestamp, List.isEmpty_cons, Bool.false_eq_true,
        if_false, hf1] at h1
      exact absurd h1 (by decide)

/-- C5 (counterexample): with two well-formed segments (start times 0 then
100, last end 110) and two chunks, chunk 0 matches the second segment
(startTime 100) while chunk 1 matches nothing and gets the proportional
fallback startTime floor((1/2)*110) = 55 < 100.  So startTime values are not
non-decreasing in chunk index order, refuting the claim as stated. -/
theorem C5_counterexample :
    List.Chain' (fun a b => a.timestampSeconds ≤ b.timestampSeconds) c5Segs
      ∧ (matchChunkToTimestamp "delta epsilon zeta" c5Segs 0 2).startTime = 100
      ∧ (matchChunkToTimestamp "qqq www eee" c5Segs 1 2).startTime = 55
      ∧ ¬ ((matchChunkToTimestamp "delta epsilon zeta" c5Segs 0 2).startTime
            ≤ (matchChunkToTimestamp "qqq www eee" c5Segs 1 2).startTime) := by
  have h0 : (matchChunkToTimestamp "delta epsilon zeta" c5Segs 0 2).startTime = 100 := by
    have hf : (preprocessTimestampSegments c5Segs).find?
        (fun p => fingerprintsMatch (chunkFingerprint "delta epsilon zeta") p.2)
          = some (c5Seg1, segmentFingerprint c5Seg1.text) := by decide
    have hne : c5Segs.isEmpty = false := by decide
    simp only [matchChunkToTimestamp, hne, Bool.false_eq_true, if_false, hf]
    simp [c5Seg1]
  have h1 : (matchChunkToTimestamp "qqq www eee" c5Segs 1 2).startTime = 55 := by
    have hf : (preprocessTimestampSegments c5Segs).find?
        (fun p => fingerprintsMatch (chunkFingerprint "qqq www eee") p.2) = none := by decide
    have hne : c5Segs.isEmpty = false := by decide
    have hlast : c5Segs.getLast? = some c5Seg1 := by decide
    simp only [matchChunkToTimestamp, hne, Bool.false_eq_true, if_false, hf, hlast,
      Option.map_some', Option.getD_some]
    exact ratFloor_cast_eval _ 55 (by push_cast; norm_num [c5Seg1])
  refine ⟨?_, h0, h1, ?_⟩
  · simp [c5Segs, c5Seg0, c5Seg1]
  · rw [h0, h1]
    norm_num

/-- C5 (witness): a concrete instantiation of the amended monotonicity
theorem: both chunks are unmatched, indices 0 and 1 of 2, with the segments
of the counterexample; the fallback start times are non-decreasing. -/
theorem C5_fallback_startTime_monotone_witness :
    (0 : Nat) ≤ 1
      ∧ (0 : Rat) ≤ ((c5Segs.getLast?.map (fun s => s.endSeconds)).getD 0)
      ∧ (matchChunkToTimestamp "qqq www eee" c5Segs 0 2).matched = false
      ∧ (matchChunkToTimestamp "rrr sss ttt" c5Segs 1 2).matched = false
      ∧ (matchChunkToTimestamp "qqq www eee" c5Segs 0 2).startTime
          ≤ (matchChunkToTimestamp "rrr sss ttt" c5Segs 1 2).startTime := by
  have hD : (0 : Rat) ≤ ((c5Segs.getLast?.map (fun s => s.endSeconds)).getD 0) := by
    have hlast : c5Segs.getLast? = some c5Seg1 := by decide
    rw [hlast]
    norm_num [c5Seg1]
  have hm0 : (matchChunkToTimestamp "qqq www eee" c5Segs 0 2).matched = false := by
    have hf : (preprocessTimestampSegments c5Segs).find?
        (fun p => fingerprintsMatch (chunkFingerprint "qqq www eee") p.2) = none := by decide
    have hne : c5Segs.isEmpty = false := by decide
    simp only [matchChunkToTimestamp, hne, Bool.false_eq_true, if_false, hf]
  have hm1 : (matchChunkToTimestamp "rrr sss ttt" c5Segs 1 2).matched = false := by
    have hf : (preprocessTimestampSegments c5Segs).find?
        (fun p => fingerprintsMatch (chunkFingerprint "rrr sss ttt") p.2) = none := by decide
    have hne : c5Segs.isEmpty = false := by decide
    simp only [matchChunkToTimestamp, hne, Bool.false_eq_true, if_false, hf]
  exact ⟨Nat.zero_le 1, hD, hm0, hm1,
    C5_fallback_startTime_monotone c5Segs "qqq www eee" "rrr sss ttt" 0 1 2
      (Nat.zero_le 1) hD hm0 hm1⟩

theorem applyHybridScore_score (query : String) (r : SearchResult) :
    (applyHybridScore query r).score
      = (if r.source = SearchSource.semantic then r.score * (7 / 10)
         else if r.source = SearchSource.keyword then r.score * (3 / 10)
         else r.score)
        * (1 + (keywordOverlapCount query r.text : Rat) * (1 / 10)) := by
  unfold applyHybridScore
  by_cases h : 0 < keywordOverlapCount query r.text
  · simp [h]
  · have h0 : keywordOverlapCount query r.text = 0 := Nat.eq_zero_of_not_pos h
    simp [h0]

theorem applyHybridScore_eq_formula (query : String) :
    applyHybridScore query = fun u =>
      { u with
        score :=
          (if u.source = SearchSource.semantic then u.score * (7 / 10)
           else if u.source = SearchSource.keyword then u.score * (3 / 10)
           else u.score)
            * (1 + (keywordOverlapCount query u.text : Rat) * (1 / 10)),
        source := SearchSource.hybrid } := by
  funext u
  have hs := applyHybridScore_score query u
  cases hu : applyHybridScore query u
  simp only [hu] at hs
  simp only [← hu]
  cases u
  simp_all [applyHybridScore]

theorem filter_score_orderedInsert (x : SearchResult) (l : List SearchResult) (c : Rat) :
    (List.orderedInsert scoreGE x l).filter (fun r => decide (r.score = c))
      = if x.score = c then x :: l.filter (fun r => decide (r.score = c))
        else l.filter (fun r => decide (r.score = c)) := by
  induction l with
  | nil => by_cases hx : x.score = c <;> simp [List.orderedInsert, hx]
  | cons y t ih =>
    by_cases hr : scoreGE x y
    · by_cases hx : x.score = c <;> by_cases hy : y.score = c <;>
        simp [List.orderedInsert, if_pos hr, List.filter_cons, hx, hy]
    · have hlt : x.score < y.score := not_le.mp hr
      by_cases hx : x.score = c
      · have hy : ¬ (y.score = c) := by rw [← hx]; exact ne_of_gt hlt
        simp [List.orderedInsert, if_neg hr, List.filter_cons, hy, ih, hx]
      · by_cases hy : y.score = c <;>
          simp [List.orderedInsert, if_neg hr, List.filter_cons, hy, ih, hx]

theorem filter_score_insertionSort (l : List SearchResult) (c : Rat) :
    (l.insertionSort scoreGE).filter (fun r => decide (r.score = c))
      = l.filter (fun r => decide (r.score = c)) := by
  induction l with
  | nil => rfl
  | cons x t ih =>
    show (List.orderedInsert scoreGE x (t.insertionSort scoreGE)).filter _ = _
    rw [filter_score_orderedInsert]
    by_cases hx : x.score = c <;> simp [List.filter_cons, hx, ih]

theorem insertionSort_cons_of_max (x : SearchResult) (xs : List SearchResult)
    (h : ∀ y ∈ xs, y.score < x.score) :
    (x :: xs).insertionSort scoreGE = x :: xs.insertionSort scoreGE := by
  show List.orderedInsert scoreGE x (xs.insertionSort scoreGE) = _
  cases hs : xs.insertionSort scoreGE with
  | nil => rfl
  | cons y t =>
    have hy : y ∈ xs := by
      have hperm := List.perm_insertionSort scoreGE xs
      exact hperm.mem_iff.mp (by rw [hs]; exact List.mem_cons_self y t)
    have hxy : scoreGE x y := le_of_lt (h y hy)
    rw [List.orderedInsert, if_pos hxy]

theorem dedupSeenAux_append (seen l1 l2 : List SearchResult) :
    dedupSeenAux seen (l1 ++ l2)
      = dedupSeenAux seen l1 ++ dedupSeenAux (seen ++ l1) l2 := by
  induction l1 generalizing seen with
  | nil => simp [dedupSeenAux]
  | cons r rest ih =>
    by_cases h : seen.any (fun prev => decide (first100 prev.text = first100 r.text))
    · simp only [List.cons_append, dedupSeenAux, h, if_pos]
      exact (ih (seen ++ [r])).trans (by rw [List.append_assoc]; rfl)
    · simp only [List.cons_append, dedupSeenAux, h, Bool.false_eq_true, if_false]
      exact congrArg (r :: ·) ((ih (seen ++ [r])).trans (by rw [List.append_assoc]; rfl))

theorem dedupSeenAux_all_kept (seen l : List SearchResult)
    (hseen : ∀ x ∈ l, ∀ y ∈ seen, first100 y.text ≠ first100 x.text)
    (hpair : l.Pairwise (fun a b => first100 a.text ≠ first100 b.text)) :
    dedupSeenAux seen l = l := by
  induction l generalizing seen with
  | nil => rfl
  | cons r rest ih =>
    have hr : seen.any (fun prev => decide (first100 prev.text = first100 r.text)) = false := by
      rw [List.any_eq_false]
      intro prev hprev
      simpa using hseen r (List.mem_cons_self r rest) prev hprev
    rw [dedupSeenAux, hr]
    simp only [Bool.false_eq_true, if_false]
    rw [ih (seen ++ [r])]
    · intro x hx y hy
      rcases List.mem_append.mp hy with hy | hy
      · exact hseen x (List.mem_cons_of_mem r hx) y hy
      · rcases List.mem_singleton.mp hy with rfl
        exact (List.pairwise_cons.mp hpair).1 x hx
    · exact (List.pairwise_cons.mp hpair).2

theorem dedupSeenAux_all_dropped (seen l : List SearchResult)
    (h : ∀ x ∈ l, ∃ y ∈ seen, first100 y.text = first100 x.text) :
    dedupSeenAux seen l = [] := by
  induction l generalizing seen with
  | nil => rfl
  | cons r rest ih =>
    have hr : seen.any (fun prev => decide (first100 prev.text = first100 r.text)) = true := by
      rw [List.any_eq_true]
      obtain ⟨y, hy, hyeq⟩ := h r (List.mem_cons_self r rest)
      exact ⟨y, hy, by simpa using hyeq⟩
    rw [dedupSeenAux, hr]
    simp only [if_pos]
    exact ih (seen ++ [r]) (fun x hx => by
      obtain ⟨y, hy, hyeq⟩ := h x (List.mem_cons_of_mem r hx)
      exact ⟨y, List.mem_append_left _ hy, hyeq⟩)

theorem mem_dedupSeenAux_decomp (seen l : List SearchResult) (x : SearchResult)
    (hx : x ∈ dedupSeenAux seen l) :
    ∃ l1 l2, l = l1 ++ x :: l2
      ∧ (∀ y ∈ seen, first100 y.text ≠ first100 x.text)
      ∧ (∀ y ∈ l1, first100 y.text ≠ first100 x.text) := by
  induction l generalizing seen with
  | nil => cases hx
  | cons r rest ih =>
    by_cases h : seen.any (fun prev => decide (first100 prev.text = first100 r.text))
    · rw [dedupSeenAux, if_pos h] at hx
      obtain ⟨l1, l2, hsplit, hs, hl1⟩ := ih (seen ++ [r]) hx
      refine ⟨r :: l1, l2, by rw [hsplit]; rfl, ?_, ?_⟩
      · exact fun y hy => hs y (List.mem_append_left _ hy)
      · intro y hy
        rcases List.mem_cons.mp hy with rfl | hy
        · exact hs y (List.mem_append_right _ (List.mem_singleton_self y))
        · exact hl1 y hy
    · rw [dedupSeenAux, if_neg (by simpa using h)] at hx
      rcases List.mem_cons.mp hx with rfl | hx
      · refine ⟨[], rest, rfl, ?_, by simp⟩
        intro y hy
        have := (List.any_eq_false.mp (Bool.eq_false_iff.mpr h)) y hy
        simpa using this
      · obtain ⟨l1, l2, hsplit, hs, hl1⟩ := ih (seen ++ [r]) hx
        refine ⟨r :: l1, l2, by rw [hsplit]; rfl, ?_, ?_⟩
        · exact fun y hy => hs y (List.mem_append_left _ hy)
        · intro y hy
          rcases List.mem_cons.mp hy with rfl | hy
          · exact hs y (List.mem_append_right _ (List.mem_singleton_self y))
          · exact hl1 y hy

theorem mem_dedupSeenAux_of_first (seen l1 l2 : List SearchResult) (x : SearchResult)
    (h : ∀ y ∈ seen ++ l1, first100 y.text ≠ first100 x.text) :
    x ∈ dedupSeenAux seen (l1 ++ x :: l2) := by
  induction l1 generalizing seen with
  | nil =>
    have hx : seen.any (fun prev => decide (first100 prev.text = first100 x.text)) = false := by
      rw [List.any_eq_false]
      intro prev hprev
      simpa using h prev (by simpa using hprev)
    rw [List.nil_append, dedupSeenAux, hx]
    simp
  | cons r rest ih =>
    rw [List.cons_append, dedupSeenAux]
    have hnext : x ∈ dedupSeenAux (seen ++ [r]) (rest ++ x :: l2) := by
      apply ih
      intro y hy
      apply h
      rcases List.mem_append.mp hy with hy | hy
      · rcases List.mem_append.mp hy with hy | hy
        · exact List.mem_append_left _ hy
        · rcases List.mem_singleton.mp hy with rfl
          exact List.mem_append_right _ (List.mem_cons_self _ _)
      · exact List.mem_append_right _ (List.mem_cons_of_mem _ hy)
    by_cases hr : seen.any (fun prev => decide (first100 prev.text = first100 r.text))
    · rw [if_pos hr]; exact hnext
    · rw [if_neg (by simpa using hr)]
      exact List.mem_cons_of_mem _ hnext

theorem exists_first_sharing (l : List SearchResult) (x : SearchResult)
    (h : ∃ s ∈ l, first100 s.text = first100 x.text) :
    ∃ l1 s l2, l = l1 ++ s :: l2 ∧ first100 s.text = first100 x.text
      ∧ ∀ y ∈ l1, first100 y.text ≠ first100 x.text := by
  induction l with
  | nil => simp at h
  | cons r rest ih =>
    by_cases hr : first100 r.text = first100 x.text
    · exact ⟨[], r, rest, rfl, hr, by simp⟩
    · obtain ⟨s, hs, hseq⟩ := h
      rcases List.mem_cons.mp hs with rfl | hs
      · exact absurd hseq hr
      · obtain ⟨l1, s', l2, hsplit, hs'eq, hl1⟩ := ih ⟨s, hs, hseq⟩
        refine ⟨r :: l1, s', l2, by rw [hsplit]; rfl, hs'eq, ?_⟩
        intro y hy
        rcases List.mem_cons.mp hy with rfl | hy
        · exact hr
        · exact hl1 y hy

/-- C10: in result fusion, when a semantic-source candidate and a
keyword-source candidate share their first 100 characters of text, the
deduplication filter keeps the (first) semantic candidate and discards the
keyword one: the combined list places all semantic results before all
keyword results and the filter keeps the first occurrence, so every
surviving candidate with that text prefix is a semantic one and the hybrid
score for that prefix is derived from a semantic score. -/
theorem C10_dedup_keeps_semantic
    (semanticResults keywordResults : List SearchResult) (r s : SearchResult)
    (hsem : ∀ x ∈ semanticResults, x.source = SearchSource.semantic)
    (hkw : ∀ x ∈ keywordResults, x.source = SearchSource.keyword)
    (hr : r ∈ keywordResults) (hs : s ∈ semanticResults)
    (hshare : first100 s.text = first100 r.text) :
    r ∉ dedupByTextStart (semanticResults ++ keywordResults)
      ∧ (∀ x ∈ dedupByTextStart (semanticResults ++ keywordResults),
          first100 x.text = first100 r.text →
            x ∈ semanticResults ∧ x.source = SearchSource.semantic)
      ∧ ∃ s0 ∈ semanticResults, first100 s0.text = first100 r.text
          ∧ s0 ∈ dedupByTextStart (semanticResults ++ keywordResults) := by
  have hrsrc : r.source = SearchSource.keyword := hkw r hr
  have hrnotsem : r ∉ semanticResults := by
    intro hmem
    rw [hsem r hmem] at hrsrc
    cases hrsrc
  refine ⟨?_, ?_, ?_⟩
  · intro hmem
    obtain ⟨l1, l2, hsplit, _, hl1⟩ := mem_dedupSeenAux_decomp [] _ r hmem
    rcases List.append_eq_append_iff.mp hsplit.symm with ⟨a, ha1, ha2⟩ | ⟨c, hc1, hc2⟩
    · cases a with
      | nil =>
        rw [List.append_nil] at ha1
        exact absurd hshare (hl1 s (ha1 ▸ hs))
      | cons b t =>
        have : r ∈ semanticResults := by
          rw [ha1]
          have hb : b = r := by
            have := congrArg (fun l => l.head?) ha2
            simpa using this.symm
          rw [hb]
          exact List.mem_append_right _ (List.mem_cons_self _ _)
        exact hrnotsem this
    · have : s ∈ l1 := by rw [hc1]; exact List.mem_append_left _ hs
      exact absurd hshare (hl1 s this)
  · intro x hx hxr
    obtain ⟨l1, l2, hsplit, _, hl1⟩ := mem_dedupSeenAux_decomp [] _ x hx
    have hinsem : x ∈ semanticResults := by
      rcases List.append_eq_append_iff.mp hsplit.symm with ⟨a, ha1, ha2⟩ | ⟨c, hc1, hc2⟩
      · cases a with
        | nil =>
          rw [List.append_nil] at ha1
          exact absurd (hshare.trans hxr.symm) (hl1 s (ha1 ▸ hs))
        | cons b t =>
          rw [ha1]
          have hb : b = x := by
            have := congrArg (fun l => l.head?) ha2
            simpa using this.symm
          rw [hb]
          exact List.mem_append_right _ (List.mem_cons_self _ _)
      · have : s ∈ l1 := by rw [hc1]; exact List.mem_append_left _ hs
        exact absurd (hshare.trans hxr.symm) (hl1 s this)
    exact ⟨hinsem, hsem x hinsem⟩
  · obtain ⟨l1, s0, l2, hsplit, hs0eq, hl1⟩ :=
      exists_first_sharing semanticResults r ⟨s, hs, hshare⟩
    refine ⟨s0, by rw [hsplit]; exact List.mem_append_right _ (List.mem_cons_self _ _),
      hs0eq, ?_⟩
    have hlist : semanticResults ++ keywordResults = l1 ++ s0 :: (l2 ++ keywordResults) := by
      rw [hsplit]; simp
    rw [dedupByTextStart, hlist]
    apply mem_dedupSeenAux_of_first
    intro y hy
    rw [List.nil_append] at hy
    rw [hs0eq]
    exact hl1 y hy

/-- C10 (witness): a concrete semantic/keyword pair with identical text;
the hypotheses of the deduplication theorem hold and its conclusion
applies. -/
theorem C10_dedup_keeps_semantic_witness :
    (∀ x ∈ [c10Sem], x.source = SearchSource.semantic)
      ∧ (∀ x ∈ [c10Kw], x.source = SearchSource.keyword)
      ∧ c10Kw ∈ [c10Kw] ∧ c10Sem ∈ [c10Sem]
      ∧ first100 c10Sem.text = first100 c10Kw.text
      ∧ (c10Kw ∉ dedupByTextStart ([c10Sem] ++ [c10Kw])
          ∧ (∀ x ∈ dedupByTextStart ([c10Sem] ++ [c10Kw]),
              first100 x.text = first100 c10Kw.text →
                x ∈ [c10Sem] ∧ x.source = SearchSource.semantic)
          ∧ ∃ s0 ∈ [c10Sem], first100 s0.text = first100 c10Kw.text
              ∧ s0 ∈ dedupByTextStart ([c10Sem] ++ [c10Kw])) := by
  refine ⟨by decide, by decide, by decide, by decide, by decide, ?_⟩
  exact C10_dedup_keeps_semantic [c10Sem] [c10Kw] c10Kw c10Sem
    (by decide) (by decide) (by decide) (by decide) (by decide)

/-- C7 (amended): `fuseAndRankResults` computes each candidate's hybrid
score as `score * 0.7` (semantic source) or `score * 0.3` (keyword source)
multiplied by `1 + 0.1 * k`, where `k` counts the whitespace-split query
words of length > 2 contained in the lower-cased candidate text, counted
WITH multiplicity (not distinct words, which is the only correction to the
claim); it returns the deduplicated candidates sorted in descending
hybrid-score order truncated to `limit`; the order is deterministic, ties
broken by input order (the stable sort leaves the relative order of
score-equal elements unchanged). -/
theorem C7_fuse_formula_sorted_stable
    (semanticResults keywordResults : List SearchResult) (query : String) (limit : Nat) :
    fuseAndRankResults semanticResults keywordResults query limit
        = (((dedupByTextStart (semanticResults ++ keywordResults)).map (fun u =>
            { u with
              score :=
                (if u.source = SearchSource.semantic then u.score * (7 / 10)
                 else if u.source = SearchSource.keyword then u.score * (3 / 10)
                 else u.score)
                  * (1 + (keywordOverlapCount query u.text : Rat) * (1 / 10)),
              source := SearchSource.hybrid })).insertionSort scoreGE).take limit
      ∧ List.Sorted scoreGE (fuseAndRankResults semanticResults keywordResults query limit)
      ∧ ∀ c : Rat,
          (((dedupByTextStart (semanticResults ++ keywordResults)).map
              (applyHybridScore query)).insertionSort scoreGE).filter
                (fun r => decide (r.score = c))
            = ((dedupByTextStart (semanticResults ++ keywordResults)).map
                (applyHybridScore query)).filter (fun r => decide (r.score = c)) := by
  refine ⟨?_, ?_, ?_⟩
  · rw [← applyHybridScore_eq_formula query]
    rfl
  · have hsorted : List.Sorted scoreGE
        (((dedupByTextStart (semanticResults ++ keywordResults)).map
          (applyHybridScore query)).insertionSort scoreGE) :=
      List.sorted_insertionSort scoreGE _
    exact List.Pairwise.sublist (List.take_sublist _ _) hsorted
  · exact fun c => filter_score_insertionSort _ c

/-- C7 (counterexample): with the single semantic candidate "cat" (score
0.8) and the query "cat cat", the code counts the query word "cat" twice
(multiplicity), producing hybrid score 0.8 * 0.7 * 1.2 = 84/125, whereas
the claim's distinct-word count gives 0.8 * 0.7 * 1.1 = 77/125.  So the
claim's score formula is false on the code. -/
theorem C7_counterexample :
    ((fuseAndRankResults [c7Sem] [] ("cat cat") 5).map (fun r => r.score)) = [84 / 125]
      ∧ keywordOverlapCount ("cat cat") c7Sem.text = 2
      ∧ distinctKeywordOverlapCount ("cat cat") c7Sem.text = 1
      ∧ (c7Sem.score * (7 / 10))
          * (1 + (distinctKeywordOverlapCount ("cat cat") c7Sem.text : Rat) * (1 / 10))
          = 77 / 125
      ∧ (84 / 125 : Rat) ≠ 77 / 125 := by
  have hk : keywordOverlapCount ("cat cat") c7Sem.text = 2 := by decide
  have hd : distinctKeywordOverlapCount ("cat cat") c7Sem.text = 1 := by decide
  refine ⟨?_, hk, hd, ?_, by norm_num⟩
  · have hdedup : dedupByTextStart ([c7Sem] ++ []) = [c7Sem] := by
      simp [dedupByTextStart, dedupSeenAux]
    rw [fuseAndRankResults]
    simp only [hdedup, List.map_cons, List.map_nil]
    rw [show (List.insertionSort scoreGE [applyHybridScore ("cat cat") c7Sem])
        = [applyHybridScore ("cat cat") c7Sem] from rfl]
    simp only [List.take, List.map_cons, List.map_nil]
    rw [applyHybridScore_score]
    rw [hk]
    norm_num [c7Sem]
  · rw [hd]
    norm_num [c7Sem]

theorem semanticResultsAux_mem (i : Nat) (ts : List String) :
    ∀ r ∈ semanticResultsAux i ts, r.source = SearchSource.semantic
      ∧ ∃ j, i ≤ j ∧ j < i + ts.length
          ∧ r.score = 4 / 5 - (j : Rat) * (1 / 20) ∧ r.text ∈ ts := by
  induction ts generalizing i with
  | nil => intro r hr; cases hr
  | cons t rest ih =>
    intro r hr
    rcases List.mem_cons.mp hr with rfl | hr
    · exact ⟨rfl, i, le_refl i, by simp, rfl, List.mem_cons_self _ _⟩
    · obtain ⟨hsrc, j, hj1, hj2, hj3, hj4⟩ := ih (i + 1) r hr
      exact ⟨hsrc, j, le_trans (Nat.le_succ i) hj1,
        by simpa [Nat.add_comm, Nat.add_assoc, Nat.add_left_comm] using hj2,
        hj3, List.mem_cons_of_mem _ hj4⟩

theorem semanticResultsAux_exists_text (i : Nat) (ts : List String) (t : String)
    (ht : t ∈ ts) : ∃ r ∈ semanticResultsAux i ts, r.text = t := by
  induction ts generalizing i with
  | nil => cases ht
  | cons u rest ih =>
    rcases List.mem_cons.mp ht with rfl | ht
    · exact ⟨_, List.mem_cons_self _ _, rfl⟩
    · obtain ⟨r, hr, hrt⟩ := ih (i + 1) ht
      exact ⟨r, List.mem_cons_of_mem _ hr, hrt⟩

theorem semanticResultsAux_pairwise (i : Nat) (ts : List String)
    (h : ts.Pairwise (fun a b => first100 a ≠ first100 b)) :
    (semanticResultsAux i ts).Pairwise
      (fun a b => first100 a.text ≠ first100 b.text) := by
  induction ts generalizing i with
  | nil => exact List.Pairwise.nil
  | cons t rest ih =>
    rw [semanticResultsAux, List.pairwise_cons]
    constructor
    · intro r hr
      obtain ⟨_, _, _, _, _, htext⟩ := semanticResultsAux_mem (i + 1) rest r hr
      have := (List.pairwise_cons.mp h).1 r.text htext
      simpa using this
    · exact ih (i + 1) (List.pairwise_cons.mp h).2

theorem dedup_semantic_with_duplicate_keywords (ts : List String) (kw : List SearchResult)
    (hp : ts.Pairwise (fun a b => first100 a ≠ first100 b))
    (hkw : ∀ r ∈ kw, ∃ t ∈ ts, first100 r.text = first100 t) :
    dedupByTextStart (semanticResultsFromChunks ts ++ kw)
      = semanticResultsFromChunks ts := by
  simp only [semanticResultsFromChunks]
  rw [dedupByTextStart, dedupSeenAux_append]
  rw [dedupSeenAux_all_kept [] _ (by simp) (semanticResultsAux_pairwise 0 ts hp)]
  rw [dedupSeenAux_all_dropped _ _ ?_]
  · simp
  · intro x hx
    obtain ⟨t, ht, hteq⟩ := hkw x hx
    obtain ⟨r, hr, hrt⟩ := semanticResultsAux_exists_text 0 ts t ht
    exact ⟨r, by simpa [semanticResultsFromChunks] using hr, by rw [hrt, ← hteq]⟩

theorem hybrid_score_lt (a : Rat) (mi m0 : Nat)
    (h1 : 0 < a) (h2 : a ≤ 3 / 4) (hm : mi < m0) :
    a * (7 / 10) * (1 + (mi : Rat) * (1 / 10))
      < (4 / 5) * (7 / 10) * (1 + (m0 : Rat) * (1 / 10)) := by
  have hmi : (mi : Rat) ≤ (m0 : Rat) - 1 := by
    have : (mi : Rat) + 1 ≤ (m0 : Rat) := by exact_mod_cast hm
    linarith
  have hm0 : (0 : Rat) ≤ (m0 : Rat) := Nat.cast_nonneg m0
  have hb : (0 : Rat) < 1 + (mi : Rat) * (1 / 10) := by positivity
  have step1 : a * (7 / 10) * (1 + (mi : Rat) * (1 / 10))
      ≤ (3 / 4) * (7 / 10) * (1 + (mi : Rat) * (1 / 10)) := by
    apply mul_le_mul_of_nonneg_right _ (le_of_lt hb)
    apply mul_le_mul_of_nonneg_right h2
    norm_num
  have step2 : (3 / 4) * (7 / 10) * (1 + (mi : Rat) * (1 / 10))
      ≤ (3 / 4) * (7 / 10) * (1 + ((m0 : Rat) - 1) * (1 / 10)) := by
    apply mul_le_mul_of_nonneg_left _ (by norm_num)
    linarith
  have step3 : (3 / 4) * (7 / 10) * (1 + ((m0 : Rat) - 1) * (1 / 10))
      < (4 / 5) * (7 / 10) * (1 + (m0 : Rat) * (1 / 10)) := by
    nlinarith
  linarith

theorem applyHybridScore_semantic (query : String) (u : SearchResult)
    (hu : u.source = SearchSource.semantic) :
    (applyHybridScore query u).score
      = u.score * (7 / 10) * (1 + (keywordOverlapCount query u.text : Rat) * (1 / 10)) := by
  rw [applyHybridScore_score, hu]
  simp

/-- C8 (amended): in a corpus of at most 10 chunks whose first-100-character
prefixes are pairwise distinct, where the keyword-search results all
duplicate semantic texts, and where the top-ranked semantic chunk `t0`
strictly dominates every other chunk in keyword-overlap count (it is the
unique chunk containing all query keywords), the fused ranking places `t0`
first.  The original claim ("regardless of its semantic rank") is false:
the 10% per-keyword boost cannot overcome the rank-based semantic score
deficit (see the counterexample). -/
theorem C8_top_semantic_with_all_keywords_ranks_first
    (t0 : String) (rest : List String) (kw : List SearchResult)
    (query : String) (limit : Nat)
    (hlen : (t0 :: rest).length ≤ 10)
    (hdist : (t0 :: rest).Pairwise (fun a b => first100 a ≠ first100 b))
    (hkw : ∀ r ∈ kw, ∃ t ∈ (t0 :: rest), first100 r.text = first100 t)
    (hmatch : ∀ t ∈ rest, keywordOverlapCount query t < keywordOverlapCount query t0)
    (hlimit : 0 < limit) :
    ((fuseAndRankResults (semanticResultsFromChunks (t0 :: rest)) kw query limit).head?.map
      (fun r => r.text)) = some t0 := by
  have hdedup := dedup_semantic_with_duplicate_keywords (t0 :: rest) kw hdist hkw
  rw [fuseAndRankResults]
  simp only [hdedup]
  have hsplit : semanticResultsFromChunks (t0 :: rest)
      = ({ text := t0, score := 4 / 5 - (0 : Rat) * (1 / 20),
           source := SearchSource.semantic,
           metadata := { videoId := "unknown", chunkIndex := 0 } } : SearchResult)
        :: semanticResultsAux 1 rest := rfl
  rw [hsplit]
  set x0 : SearchResult :=
    { text := t0, score := 4 / 5 - (0 : Rat) * (1 / 20),
      source := SearchSource.semantic,
      metadata := { videoId := "unknown", chunkIndex := 0 } } with hx0
  rw [List.map_cons]
  have hmax : ∀ y ∈ (semanticResultsAux 1 rest).map (applyHybridScore query),
      y.score < (applyHybridScore query x0).score := by
    intro y hy
    obtain ⟨r, hr, rfl⟩ := List.mem_map.mp hy
    obtain ⟨hsrc, j, hj1, hj2, hj3, hj4⟩ := semanticResultsAux_mem 1 rest r hr
    have hj9 : j ≤ 9 := by
      have : rest.length ≤ 9 := by simpa using hlen
      omega
    have hscorebounds : 0 < r.score ∧ r.score ≤ 3 / 4 := by
      rw [hj3]
      have hjq : (1 : Rat) ≤ (j : Rat) := by exact_mod_cast hj1
      have hjq9 : (j : Rat) ≤ 9 := by exact_mod_cast hj9
      constructor <;> linarith
    rw [applyHybridScore_semantic query r hsrc,
      applyHybridScore_semantic query x0 rfl]
    have hx0score : x0.score = 4 / 5 := by rw [hx0]; norm_num
    rw [hx0score]
    have hx0text : x0.text = t0 := rfl
    rw [hx0text]
    exact hybrid_score_lt r.score _ _ hscorebounds.1 hscorebounds.2
      (hmatch r.text hj4)
  rw [insertionSort_cons_of_max (applyHybridScore query x0) _ hmax]
  cases limit with
  | zero => cases hlimit
  | succ n =>
    rw [List.take_succ_cons]
    rfl

/-- C8 (counterexample): a corpus of 10 chunks in which exactly one chunk
("zebra stripes pattern", at semantic rank 9) contains the query keyword
"zebra" verbatim; the keyword search returns that chunk (score 2), but
deduplication keeps the semantic copy, whose boosted score
0.35 * 0.7 * 1.1 = 0.2695 is far below the top semantic result's
0.8 * 0.7 = 0.56.  The fused ranking places "alpha first" first, not the
keyword-matching chunk, refuting the claim as stated. -/
theorem C8_counterexample :
    keywordOverlapCount ("zebra") ("zebra stripes pattern") = 1
      ∧ (∀ t ∈ c8Texts.take 9, keywordOverlapCount ("zebra") t = 0)
      ∧ ((fuseAndRankResults (semanticResultsFromChunks c8Texts) c8Kw ("zebra") 5).head?.map
          (fun r => r.text)) = some ("alpha first")
      ∧ ("alpha first" : String) ≠ "zebra stripes pattern" := by
  refine ⟨by decide, by decide, ?_, by decide⟩
  have hdedup := dedup_semantic_with_duplicate_keywords c8Texts c8Kw
    (by decide) (by decide)
  rw [fuseAndRankResults]
  simp only [hdedup]
  have hsplit : semanticResultsFromChunks c8Texts
      = ({ text := "alpha first", score := 4 / 5 - (0 : Rat) * (1 / 20),
           source := SearchSource.semantic,
           metadata := { videoId := "unknown", chunkIndex := 0 } } : SearchResult)
        :: semanticResultsAux 1 (c8Texts.drop 1) := rfl
  rw [hsplit, List.map_cons]
  set x0 : SearchResult :=
    { text := "alpha first", score := 4 / 5 - (0 : Rat) * (1 / 20),
      source := SearchSource.semantic,
      metadata := { videoId := "unknown", chunkIndex := 0 } } with hx0
  have hmax : ∀ y ∈ (semanticResultsAux 1 (c8Texts.drop 1)).map (applyHybridScore ("zebra")),
      y.score < (applyHybridScore ("zebra") x0).score := by
    intro y hy
    have hx0v : (applyHybridScore ("zebra") x0).score = 14 / 25 := by
      rw [applyHybridScore_semantic _ x0 rfl,
        show keywordOverlapCount ("zebra") x0.text = 0 from by decide]
      rw [hx0]
      norm_num
    rw [hx0v]
    simp only [show c8Texts.drop 1
        = ["bravo second", "charlie third", "delta fourth", "echo fifth",
           "foxtrot sixth", "golf seventh", "hotel eighth", "india ninth",
           "zebra stripes pattern"] from rfl,
      semanticResultsAux, List.map_cons, List.map_nil, List.mem_cons,
      List.not_mem_nil, or_false] at hy
    rcases hy with rfl | rfl | rfl | rfl | rfl | rfl | rfl | rfl | rfl
    all_goals rw [applyHybridScore_semantic _ _ rfl]
    all_goals simp only [
      show keywordOverlapCount ("zebra") ("bravo second") = 0 from by decide,
      show keywordOverlapCount ("zebra") ("charlie third") = 0 from by decide,
      show keywordOverlapCount ("zebra") ("delta fourth") = 0 from by decide,
      show keywordOverlapCount ("zebra") ("echo fifth") = 0 from by decide,
      show keywordOverlapCount ("zebra") ("foxtrot sixth") = 0 from by decide,
      show keywordOverlapCount ("zebra") ("golf seventh") = 0 from by decide,
      show keywordOverlapCount ("zebra") ("hotel eighth") = 0 from by decide,
      show keywordOverlapCount ("zebra") ("india ninth") = 0 from by decide,
      show keywordOverlapCount ("zebra") ("zebra stripes pattern") = 1 from by decide]
    all_goals norm_num
  rw [insertionSort_cons_of_max (applyHybridScore ("zebra") x0) _ hmax]
  rw [List.take_succ_cons]
  rfl

/-- C8 (witness): when the unique all-keywords chunk is also the top-ranked
semantic result, the amended theorem applies and it ranks first. -/
theorem C8_top_semantic_ranks_first_witness :
    ("zebra stripes pattern" :: c8WitnessRest).length ≤ 10
      ∧ ("zebra stripes pattern" :: c8WitnessRest).Pairwise
          (fun a b => first100 a ≠ first100 b)
      ∧ (∀ r ∈ ([] : List SearchResult),
          ∃ t ∈ ("zebra stripes pattern" :: c8WitnessRest), first100 r.text = first100 t)
      ∧ (∀ t ∈ c8WitnessRest,
          keywordOverlapCount ("zebra") t
            < keywordOverlapCount ("zebra") ("zebra stripes pattern"))
      ∧ (0 : Nat) < 5
      ∧ ((fuseAndRankResults
            (semanticResultsFromChunks ("zebra stripes pattern" :: c8WitnessRest))
            [] ("zebra") 5).head?.map (fun r => r.text))
          = some ("zebra stripes pattern") := by
  refine ⟨by decide, by decide, by decide, by decide, by decide, ?_⟩
  exact C8_top_semantic_with_all_keywords_ranks_first
    ("zebra stripes pattern") c8WitnessRest [] ("zebra") 5
    (by decide) (by decide) (by decide) (by decide) (by decide)

theorem buildChunks_mem (maxTokens : Nat) (sents : List String) (cur : String) :
    ∀ c ∈ buildChunks maxTokens sents cur,
      100 < c.length ∧ (c.length < 2500 ∨ c = cur ∨ ∃ s ∈ sents, c = jsTrim s) := by
  induction sents generalizing cur with
  | nil =>
    intro c hc
    rw [buildChunks] at hc
    by_cases h : 100 < cur.length
    · rw [if_pos h] at hc
      rcases List.mem_singleton.mp hc with rfl
      exact ⟨h, Or.inr (Or.inl rfl)⟩
    · rw [if_neg h] at hc
      cases hc
  | cons s rest ih =>
    intro c hc
    rw [buildChunks] at hc
    by_cases hacc : estimateTokens (joinChunk cur (jsTrim s)) * 5 < maxTokens * 4
      && (joinChunk cur (jsTrim s)).length < 2500
    · rw [if_pos hacc] at hc
      obtain ⟨hlen, hcase⟩ := ih _ c hc
      refine ⟨hlen, ?_⟩
      rcases hcase with hlt | heq | ⟨s', hs', ht⟩
      · exact Or.inl hlt
      · rw [heq]
        have h2 := hacc
        simp only [Bool.and_eq_true, decide_eq_true_eq] at h2
        exact Or.inl h2.2
      · exact Or.inr (Or.inr ⟨s', List.mem_cons_of_mem _ hs', ht⟩)
    · rw [if_neg hacc] at hc
      rcases List.mem_append.mp hc with hc | hc
      · by_cases h : 100 < cur.length
        · rw [if_pos h] at hc
          rcases List.mem_singleton.mp hc with rfl
          exact ⟨h, Or.inr (Or.inl rfl)⟩
        · rw [if_neg h] at hc
          cases hc
      · obtain ⟨hlen, hcase⟩ := ih _ c hc
        refine ⟨hlen, ?_⟩
        rcases hcase with hlt | heq | ⟨s', hs', ht⟩
        · exact Or.inl hlt
        · exact Or.inr (Or.inr ⟨s, List.mem_cons_self _ _, heq⟩)
        · exact Or.inr (Or.inr ⟨s', List.mem_cons_of_mem _ hs', ht⟩)

/-- C9 (amended): `chunkText` returns the empty list for input under 50
characters; every emitted chunk exceeds the 100-character minimum; and
every emitted chunk is either under the 2500-character hard ceiling or is a
single trimmed sentence emitted on its own - a single sentence longer than
the ceiling is NOT split and is emitted as an oversized chunk, which is the
one correction to the claim (accumulated chunks never reach the ceiling). -/
theorem C9_chunkText_bounds (text : String) (maxTokens : Nat) :
    (text.length < 50 → chunkText text maxTokens = [])
      ∧ ∀ c ∈ chunkText text maxTokens,
          100 < c.length
            ∧ (c.length < 2500 ∨ ∃ s ∈ sentencesOf text maxTokens, c = jsTrim s) := by
  constructor
  · intro h
    rw [chunkText, if_pos h]
  · intro c hc
    rw [chunkText] at hc
    by_cases h : text.length < 50
    · rw [if_pos h] at hc; cases hc
    · rw [if_neg h] at hc
      obtain ⟨hlen, hcase⟩ := buildChunks_mem maxTokens _ "" c hc
      refine ⟨hlen, ?_⟩
      rcases hcase with hlt | heq | hex
      · exact Or.inl hlt
      · rw [heq] at hlen
        cases hlen
      · exact Or.inr hex

/-- C9 (counterexample): a 2707-character text of three sentences whose
middle sentence is 2501 characters long; `chunkText` emits it as a single
chunk of 2501 characters, exceeding the 2500-character hard ceiling, so
the claim "no emitted chunk exceeds the 2500-character hard ceiling" is
false on the code. -/
theorem splitSentAux_skip (c : Char) (h1 : isSentencePunct c = false)
    (h2 : jsNl c = false) :
    ∀ (n m : Nat) (rest acc : List Char),
      splitSentAux (n + m) (List.replicate n c ++ rest) acc
        = splitSentAux m rest (List.replicate n c ++ acc) := by
  intro n
  induction n with
  | zero => intro m rest acc; simp
  | succ k ih =>
    intro m rest acc
    rw [List.replicate_succ, List.cons_append,
      show k + 1 + m = (k + m) + 1 from by omega]
    rw [splitSentAux]
    simp only [h1, h2, Bool.false_and, Bool.false_eq_true, if_false]
    rw [ih m rest (c :: acc)]
    congr 1
    rw [show List.replicate k c ++ c :: acc = (List.replicate k c ++ [c]) ++ acc from by simp,
      ← List.replicate_succ', List.replicate_succ, List.cons_append]

theorem dropWhile_replicate_head (p : Char → Bool) (c : Char) (h : p c = false) :
    ∀ (n : Nat) (rest : List Char),
      (List.replicate (n + 1) c ++ rest).dropWhile p
        = List.replicate (n + 1) c ++ rest := by
  intro n rest
  rw [List.replicate_succ, List.cons_append, List.dropWhile_cons_of_neg (by simp [h])]

theorem jsTrim_replicate (c : Char) (h : jsWs c = false) (n : Nat) :
    jsTrim ⟨List.replicate n c⟩ = ⟨List.replicate n c⟩ := by
  cases n with
  | zero => rfl
  | succ k =>
    rw [jsTrim]
    congr 1
    rw [show (String.mk (List.replicate (k + 1) c)).data = List.replicate (k + 1) c from rfl]
    rw [show (List.replicate (k + 1) c).dropWhile (fun d => jsWs d)
        = List.replicate (k + 1) c from by
      rw [← List.append_nil (List.replicate (k + 1) c)]
      exact dropWhile_replicate_head (fun d => jsWs d) c h k []]
    rw [List.reverse_replicate]
    rw [show (List.replicate (k + 1) c).dropWhile (fun d => jsWs d)
        = List.replicate (k + 1) c from by
      rw [← List.append_nil (List.replicate (k + 1) c)]
      exact dropWhile_replicate_head (fun d => jsWs d) c h k []]
    rw [List.reverse_replicate]

theorem jsSplitSentences_c9 :
    jsSplitSentences c9Text = [c9SentA, c9SentB, c9SentC] := by
  have hdata : c9Text.data
      = List.replicate 101 'x'
        ++ ('.' :: ' ' :: (List.replicate 2501 'y'
        ++ ('.' :: ' ' :: List.replicate 101 'z'))) := rfl
  have hlen : c9Text.data.length = 2707 := by
    rw [hdata]
    simp only [List.length_append, List.length_cons, List.length_replicate]
  rw [jsSplitSentences, hlen, hdata]
  rw [show (2707 : Nat) = 101 + 2606 from by norm_num]
  rw [splitSentAux_skip 'x' (by decide) (by decide) 101 2606 _ _]
  rw [show (2606 : Nat) = 2605 + 1 from by norm_num]
  rw [splitSentAux]
  rw [if_pos (by decide)]
  rw [List.dropWhile_cons_of_pos (by decide)]
  rw [show (2501 : Nat) = 2500 + 1 from by norm_num,
    dropWhile_replicate_head jsWs 'y' (by decide) 2500 _]
  rw [show (2605 : Nat) = (2500 + 1) + 104 from by norm_num]
  rw [splitSentAux_skip 'y' (by decide) (by decide) (2500 + 1) 104 _ _]
  rw [show (104 : Nat) = 103 + 1 from by norm_num]
  rw [splitSentAux]
  rw [if_pos (by decide)]
  rw [List.dropWhile_cons_of_pos (by decide)]
  rw [show List.replicate 101 'z' = List.replicate (100 + 1) 'z' ++ [] from by simp,
    dropWhile_replicate_head jsWs 'z' (by decide) 100 []]
  rw [show (103 : Nat) = (100 + 1) + 2 from by norm_num]
  rw [splitSentAux_skip 'z' (by decide) (by decide) (100 + 1) 2 _ _]
  rw [splitSentAux]
  rw [List.append_nil, List.append_nil, List.append_nil, List.reverse_replicate,
    List.reverse_replicate, List.reverse_replicate]
  rfl

theorem c9SentA_length : c9SentA.length = 101 :=
  List.length_replicate 101 'x'

theorem c9SentB_length : c9SentB.length = 2501 :=
  List.length_replicate 2501 'y'

theorem c9SentC_length : c9SentC.length = 101 :=
  List.length_replicate 101 'z'

theorem c9Text_length : c9Text.length = 2707 := by
  show (c9SentA.data ++ ('.' :: ' ' :: (c9SentB.data ++ ('.' :: ' ' :: c9SentC.data)))).length
      = 2707
  rw [List.length_append, List.length_cons, List.length_cons, List.length_append,
    List.length_cons, List.length_cons,
    show c9SentA.data.length = 101 from List.length_replicate 101 'x',
    show c9SentB.data.length = 2501 from List.length_replicate 2501 'y',
    show c9SentC.data.length = 101 from List.length_replicate 101 'z']

theorem sentencesOf_c9 : sentencesOf c9Text 400 = [c9SentA, c9SentB, c9SentC] := by
  have htA : jsTrim c9SentA = c9SentA := jsTrim_replicate 'x' (by decide) 101
  have htB : jsTrim c9SentB = c9SentB := jsTrim_replicate 'y' (by decide) 2501
  have htC : jsTrim c9SentC = c9SentC := jsTrim_replicate 'z' (by decide) 101
  rw [sentencesOf, jsSplitSentences_c9]
  simp only [List.filter_cons, List.filter_nil, htA, htB, htC,
    c9SentA_length, c9SentB_length, c9SentC_length]
  norm_num

theorem joinChunk_empty (t : String) : joinChunk "" t = t := by
  rw [joinChunk, if_pos rfl]

theorem joinChunk_ne (cur t : String) (h : ¬ (cur = "")) :
    joinChunk cur t = ⟨cur.data ++ (' ' :: t.data)⟩ := by
  rw [joinChunk, if_neg h]

theorem buildChunks_cons_acc (maxTokens : Nat) (s : String) (rest : List String)
    (cur : String)
    (h : (estimateTokens (joinChunk cur (jsTrim s)) * 5 < maxTokens * 4
          && (joinChunk cur (jsTrim s)).length < 2500) = true) :
    buildChunks maxTokens (s :: rest) cur
      = buildChunks maxTokens rest (joinChunk cur (jsTrim s)) := by
  rw [buildChunks]
  simp only [h, if_pos]

theorem buildChunks_cons_flush (maxTokens : Nat) (s : String) (rest : List String)
    (cur : String)
    (h : (estimateTokens (joinChunk cur (jsTrim s)) * 5 < maxTokens * 4
          && (joinChunk cur (jsTrim s)).length < 2500) = false)
    (hlen : 100 < cur.length) :
    buildChunks maxTokens (s :: rest) cur
      = cur :: buildChunks maxTokens rest (jsTrim s) := by
  rw [buildChunks]
  simp only [h, Bool.false_eq_true, if_false, if_pos hlen, List.singleton_append]

theorem buildChunks_nil_push (maxTokens : Nat) (cur : String) (h : 100 < cur.length) :
    buildChunks maxTokens [] cur = [cur] := by
  rw [buildChunks, if_pos h]

theorem chunkText_c9 : chunkText c9Text 400 = [c9SentA, c9SentB, c9SentC] := by
  have htA : jsTrim c9SentA = c9SentA := jsTrim_replicate 'x' (by decide) 101
  have htB : jsTrim c9SentB = c9SentB := jsTrim_replicate 'y' (by decide) 2501
  have htC : jsTrim c9SentC = c9SentC := jsTrim_replicate 'z' (by decide) 101
  have hAne : ¬ (c9SentA = "") := by decide
  have hBne : ¬ (c9SentB = "") := by
    intro h
    have := congrArg String.length h
    rw [c9SentB_length] at this
    simp at this
  have hABlen : (String.mk (c9SentA.data ++ (' ' :: c9SentB.data))).length = 2603 := by
    show (c9SentA.data ++ (' ' :: c9SentB.data)).length = 2603
    rw [List.length_append, List.length_cons,
      show c9SentA.data.length = 101 from List.length_replicate 101 'x',
      show c9SentB.data.length = 2501 from List.length_replicate 2501 'y']
  have hBClen : (String.mk (c9SentB.data ++ (' ' :: c9SentC.data))).length = 2603 := by
    show (c9SentB.data ++ (' ' :: c9SentC.data)).length = 2603
    rw [List.length_append, List.length_cons,
      show c9SentB.data.length = 2501 from List.length_replicate 2501 'y',
      show c9SentC.data.length = 101 from List.length_replicate 101 'z']
  rw [chunkText, if_neg (by rw [c9Text_length]; norm_num), sentencesOf_c9]
  rw [buildChunks_cons_acc 400 c9SentA [c9SentB, c9SentC] "" (by
    rw [htA, joinChunk_empty]
    rw [show estimateTokens c9SentA = 26 from by
        simp only [estimateTokens, c9SentA_length],
      c9SentA_length]
    decide)]
  rw [htA, joinChunk_empty]
  rw [buildChunks_cons_flush 400 c9SentB [c9SentC] c9SentA (by
    rw [htB, joinChunk_ne c9SentA c9SentB hAne]
    rw [show estimateTokens (String.mk (c9SentA.data ++ (' ' :: c9SentB.data))) = 651 from by
        simp only [estimateTokens, hABlen],
      hABlen]
    decide) (by rw [c9SentA_length]; norm_num)]
  rw [htB]
  rw [buildChunks_cons_flush 400 c9SentC [] c9SentB (by
    rw [htC, joinChunk_ne c9SentB c9SentC hBne]
    rw [show estimateTokens (String.mk (c9SentB.data ++ (' ' :: c9SentC.data))) = 651 from by
        simp only [estimateTokens, hBClen],
      hBClen]
    decide) (by rw [c9SentB_length]; norm_num)]
  rw [htC]
  rw [buildChunks_nil_push 400 c9SentC (by rw [c9SentC_length]; norm_num)]

/-- C9 (counterexample): the 2707-character text of three sentences (101,
2501 and 101 characters, separated by ". ") is chunked into exactly those
three sentences; the middle chunk is 2501 characters long, exceeding the
2500-character hard ceiling, refuting the claim that no emitted chunk
exceeds the ceiling. -/
theorem C9_counterexample :
    50 ≤ c9Text.length
      ∧ ((chunkText c9Text 400).map String.length) = [101, 2501, 101]
      ∧ c9SentB ∈ chunkText c9Text 400 ∧ 2500 < c9SentB.length := by
  refine ⟨by rw [c9Text_length]; norm_num, ?_, ?_, by rw [c9SentB_length]; norm_num⟩
  · rw [chunkText_c9]
    simp only [List.map_cons, List.map_nil, c9SentA_length, c9SentB_length, c9SentC_length]
  · rw [chunkText_c9]
    simp

/-- C9 (witness): concrete instantiations of the amended chunker theorem:
a 4-character input yields no chunks, and the first chunk of the
counterexample text satisfies the amended bound. -/
theorem C9_chunkText_bounds_witness :
    ("tiny" : String).length < 50 ∧ chunkText ("tiny") 400 = []
      ∧ c9SentA ∈ chunkText c9Text 400
      ∧ (100 < c9SentA.length
          ∧ (c9SentA.length < 2500 ∨ ∃ s ∈ sentencesOf c9Text 400, c9SentA = jsTrim s)) := by
  refine ⟨by decide, (C9_chunkText_bounds ("tiny") 400).1 (by decide), ?_, ?_⟩
  · rw [chunkText_c9]
    simp
  · exact (C9_chunkText_bounds c9Text 400).2 c9SentA (by rw [chunkText_c9]; simp)

/-- C6 (counterexample): running ingestion twice for the same
(creatorId, videoId, chunkIndex): the vector store ends with exactly one
record under the deterministic id (the upsert replaced it), but the
metadata store ends with TWO documents of the same identity - `insertMany`
appends instead of replacing, refuting the claim that the metadata-store
write "likewise replaces rather than adds". -/
theorem C6_counterexample :
    ragStoreTranscriptChunks c6embed [] [] ("creator1") ("video1") [c6doc]
        none none none []
      = Except.ok ([(pineconeVectorId ("creator1") ("video1") 0, c6vec)], [c6mongoDoc])
      ∧ ragStoreTranscriptChunks c6embed
          [(pineconeVectorId ("creator1") ("video1") 0, c6vec)] [c6mongoDoc]
          ("creator1") ("video1") [c6doc] none none none []
        = Except.ok ([(pineconeVectorId ("creator1") ("video1") 0, c6vec)],
            [c6mongoDoc, c6mongoDoc])
      ∧ countKey [(pineconeVectorId ("creator1") ("video1") 0, c6vec)]
          (pineconeVectorId ("creator1") ("video1") 0) = 1
      ∧ countMongoId [c6mongoDoc, c6mongoDoc] ("creator1") ("video1") 0 = 2
      ∧ ¬ (2 = 1) := by
  exact ⟨by decide, by decide, by decide, by decide, by decide⟩

theorem countKey_cons (p : String × PineconeVector) (rest : PineconeStore)
    (k : String) :
    countKey (p :: rest) k = (if p.1 = k then 1 else 0) + countKey rest k := by
  simp only [countKey, List.filter_cons]
  by_cases h : p.1 = k
  · simp [h, Nat.add_comm]
  · simp [h]

theorem countKey_map_replace (store : PineconeStore) (id : String)
    (v : PineconeVector) (k : String) :
    countKey (List.map (fun p => if p.1 = id then (id, v) else p) store) k
      = countKey store k := by
  induction store with
  | nil => rfl
  | cons p rest ih =>
    rw [List.map_cons, countKey_cons, countKey_cons, ih]
    by_cases hp : p.1 = id
    · rw [if_pos hp]
      show (if id = k then 1 else 0) + _ = _
      rw [hp]
    · rw [if_neg hp]

theorem countKey_append (s t : PineconeStore) (k : String) :
    countKey (s ++ t) k = countKey s k + countKey t k := by
  simp [countKey, List.filter_append]

theorem countKey_eq_zero_of_absent (store : PineconeStore) (id : String)
    (h : List.any store (fun p => decide (p.1 = id)) = false) :
    countKey store id = 0 := by
  simp only [countKey, List.length_eq_zero, List.filter_eq_nil_iff]
  intro p hp
  have := List.any_eq_false.mp h p hp
  simpa using this

theorem countKey_upsertVector_le_one (store : PineconeStore) (id : String)
    (v : PineconeVector) (k : String) (h : countKey store k ≤ 1) :
    countKey (upsertVector store id v) k ≤ 1 := by
  unfold upsertVector
  by_cases hany : List.any store (fun p => decide (p.1 = id)) = true
  · rw [if_pos hany, countKey_map_replace]
    exact h
  · rw [if_neg hany]
    have hfalse : List.any store (fun p => decide (p.1 = id)) = false :=
      Bool.eq_false_iff.mpr hany
    rw [show List.append store [(id, v)] = store ++ [(id, v)] from rfl,
      countKey_append, countKey_cons]
    by_cases hk : id = k
    · subst hk
      rw [countKey_eq_zero_of_absent store id hfalse]
      simp [countKey]
    · rw [if_neg hk]
      simpa [countKey] using h

theorem countKey_upsertAll_le_one (vs : List (String × PineconeVector))
    (store : PineconeStore) (h : ∀ k, countKey store k ≤ 1) (k : String) :
    countKey (upsertAll store vs) k ≤ 1 := by
  induction vs generalizing store with
  | nil => exact h k
  | cons p rest ih =>
    exact ih (upsertVector store p.1 p.2)
      (fun k2 => countKey_upsertVector_le_one store p.1 p.2 k2 (h k2))

theorem countKey_pineconeStore_le_one (store : PineconeStore)
    (creatorId videoId : String) (chunks : List EmbeddedChunk)
    (h : ∀ k, countKey store k ≤ 1) (k : String) :
    countKey (pineconeStoreTranscriptChunks store creatorId videoId chunks) k ≤ 1 := by
  unfold pineconeStoreTranscriptChunks
  by_cases hc : chunks = []
  · rw [if_pos hc]; exact h k
  · rw [if_neg hc]; exact countKey_upsertAll_le_one _ store h k

theorem except_bind_ok {α β : Type} (a : α) (f : α → Except String β) :
    Except.bind (Except.ok a) f = f a := rfl

theorem except_bind_error {α β : Type} (msg : String) (f : α → Except String β) :
    Except.bind (Except.error msg : Except String α) f = Except.error msg := rfl

theorem ragStore_run (embed : String → List Rat) (pc : PineconeStore)
    (mongo : List MongoChunkDoc) (creatorId videoId : String)
    (docs : List ChunkDoc) (vt vu th : Option String)
    (segs : List TimestampSegment) (chunks : List EmbeddedChunk)
    (hd : ¬ docs = []) (hEmb : embedChunks embed vt docs 0 = Except.ok chunks)
    (hc : ¬ chunks = []) :
    ragStoreTranscriptChunks embed pc mongo creatorId videoId docs vt vu th segs
      = Except.ok
          (pineconeStoreTranscriptChunks pc creatorId videoId chunks,
           mongo ++ ragDocuments creatorId videoId vt vu th segs chunks) := by
  unfold ragStoreTranscriptChunks
  rw [if_neg hd, hEmb, except_bind_ok, if_neg hc]
  rfl

/-- C6 (amended): when the same chunk batch is ingested twice, the vector
store never accumulates two records under any id - the deterministic id
`creatorId_videoId_chunkIndex` makes the second upsert a replacement - but
the MongoDB metadata store receives the whole document batch AGAIN: after
the second run it holds the first run's documents twice over. -/
theorem C6_second_run_upserts_vectors_but_appends_mongo
    (embed : String → List Rat) (pc1 pc2 : PineconeStore)
    (m1 m2 : List MongoChunkDoc) (creatorId videoId : String)
    (docs : List ChunkDoc) (vt vu th : Option String)
    (segs : List TimestampSegment)
    (h1 : ragStoreTranscriptChunks embed [] [] creatorId videoId docs vt vu th segs
            = Except.ok (pc1, m1))
    (h2 : ragStoreTranscriptChunks embed pc1 m1 creatorId videoId docs vt vu th segs
            = Except.ok (pc2, m2)) :
    (∀ id, countKey pc2 id ≤ 1) ∧ m2 = m1 ++ m1 := by
  by_cases hd : docs = []
  · exfalso
    unfold ragStoreTranscriptChunks at h1
    rw [if_pos hd] at h1
    exact Except.noConfusion h1
  cases hEmb : embedChunks embed vt docs 0 with
  | error msg =>
    exfalso
    unfold ragStoreTranscriptChunks at h1
    rw [if_neg hd, hEmb, except_bind_error] at h1
    exact Except.noConfusion h1
  | ok chunks =>
    by_cases hc : chunks = []
    · exfalso
      unfold ragStoreTranscriptChunks at h1
      rw [if_neg hd, hEmb, except_bind_ok, if_pos hc] at h1
      exact Except.noConfusion h1
    · have e1 := Except.ok.inj
        ((ragStore_run embed [] [] creatorId videoId docs vt vu th segs chunks
          hd hEmb hc).symm.trans h1)
      have e2 := Except.ok.inj
        ((ragStore_run embed pc1 m1 creatorId videoId docs vt vu th segs chunks
          hd hEmb hc).symm.trans h2)
      have hpc1 : pineconeStoreTranscriptChunks [] creatorId videoId chunks = pc1 :=
        congrArg Prod.fst e1
      have hm1 : ragDocuments creatorId videoId vt vu th segs chunks = m1 := by
        have := congrArg Prod.snd e1
        simpa using this
      have hpc2 : pineconeStoreTranscriptChunks pc1 creatorId videoId chunks = pc2 :=
        congrArg Prod.fst e2
      have hm2 : m1 ++ ragDocuments creatorId videoId vt vu th segs chunks = m2 :=
        congrArg Prod.snd e2
      constructor
      · intro id
        rw [← hpc2, ← hpc1]
        apply countKey_pineconeStore_le_one
        intro k
        apply countKey_pineconeStore_le_one
        intro k2
        simp [countKey]
      · rw [← hm2, hm1]

/-- C6 (witness for the amended theorem): the concrete double ingestion of
a single chunk, run through the theorem. -/
theorem C6_second_run_upserts_vectors_but_appends_mongo_witness :
    (∀ id, countKey [(pineconeVectorId ("creator1") ("video1") 0, c6vec)] id ≤ 1)
      ∧ ([c6mongoDoc, c6mongoDoc] : List MongoChunkDoc) = [c6mongoDoc] ++ [c6mongoDoc] :=
  C6_second_run_upserts_vectors_but_appends_mongo c6embed
    [(pineconeVectorId ("creator1") ("video1") 0, c6vec)]
    [(pineconeVectorId ("creator1") ("video1") 0, c6vec)]
    [c6mongoDoc] [c6mongoDoc, c6mongoDoc]
    ("creator1") ("video1") [c6doc] none none none []
    (by decide) (by decide)

/-- C1 (code bug): the duplicate check and the `processing` write are two
separate non-atomic database operations, and the exclusive Redis lock
(`markChannelProcessing`) is never invoked.  Under the interleaving
check-A, check-B, write-A, write-B both requests enter `processing` for
the same `(channelId, teamId)` and neither receives the 409, violating the
claimed at-most-one-processing invariant; only fully serial execution
(second conjunct) produces the 409.  The lock itself (third conjunct)
would have been exclusive - its second acquisition fails - but no code
path acquires it. -/
theorem C1_concurrent_requests_both_enter_processing :
    (runIngest ("chan") ("team") ("jobA") ("jobB")
        [true, false, true, false]
        { db := [], phaseA := ReqPhase.start, phaseB := ReqPhase.start }).phaseA
        = ReqPhase.entered
    ∧ (runIngest ("chan") ("team") ("jobA") ("jobB")
        [true, false, true, false]
        { db := [], phaseA := ReqPhase.start, phaseB := ReqPhase.start }).phaseB
        = ReqPhase.entered
    ∧ countProcessingPair
        (runIngest ("chan") ("team") ("jobA") ("jobB")
          [true, false, true, false]
          { db := [], phaseA := ReqPhase.start, phaseB := ReqPhase.start }).db
        ("chan") ("team") = 2
    ∧ ¬ countProcessingPair
        (runIngest ("chan") ("team") ("jobA") ("jobB")
          [true, false, true, false]
          { db := [], phaseA := ReqPhase.start, phaseB := ReqPhase.start }).db
        ("chan") ("team") ≤ 1
    ∧ (runIngest ("chan") ("team") ("jobA") ("jobB")
        [true, true, false]
        { db := [], phaseA := ReqPhase.start, phaseB := ReqPhase.start }).phaseB
        = ReqPhase.rejected409
    ∧ (markChannelProcessing
        (markChannelProcessing [] ("chan") ("team") ("jobA")).1
        ("chan") ("team") ("jobB")).2 = false := by
  exact ⟨by decide, by decide, by decide, by decide, by decide, by decide⟩

set_option maxRecDepth 4000 in
/-- C2 (code bug): the early gate fires under exactly the same condition
as the later specific-message gate, so EVERY zero-eligibility failure
yields the one generic message - the specific messages distinguishing
no-captions, wrong-duration, and no-overlap are dead code.  First
conjunct: universally, the gate either passes or produces the generic
message.  Then: three channels failing for three different reasons (no
captions and bad duration; valid durations but no captions; captions but
bad durations) receive the identical message, even though the dead
builder would have distinguished them; the generic message does mention
"captions" and "2-25". -/
theorem C2_eligibility_failure_message_is_generic :
    (∀ (videos : List VideoInfo) (cd chd wk : Option String),
        processEligibility videos cd chd wk = none
        ∨ processEligibility videos cd chd wk = some genericEligibilityMsg)
    ∧ processEligibility [{ hasCaptions := false, durationMinutes := 30 }] none none none
        = some genericEligibilityMsg
    ∧ processEligibility [{ hasCaptions := false, durationMinutes := 10 }] none none none
        = some genericEligibilityMsg
    ∧ processEligibility [{ hasCaptions := true, durationMinutes := 30 }] none none none
        = some genericEligibilityMsg
    ∧ ¬ specificEligibilityMessage 0 0 = specificEligibilityMessage 0 1
    ∧ ¬ specificEligibilityMessage 0 1 = specificEligibilityMessage 1 0
    ∧ jsIncludes genericEligibilityMsg ("captions") = true
    ∧ jsIncludes genericEligibilityMsg ("2-25") = true := by
  refine ⟨?_, by decide, by decide, by decide, by decide, by decide, by decide, by decide⟩
  intro videos cd chd wk
  unfold processEligibility
  by_cases h : videosEligibleForProcessing videos = 0 ∧ descUsable cd = false
      ∧ descUsable chd = false ∧ descUsable wk = false
  · rw [if_pos h]
    exact Or.inr rfl
  · rw [if_neg h, if_neg (fun h2 => h ⟨h2.1, h2.2.2.1, h2.2.1, h2.2.2.2⟩)]
    exact Or.inl rfl

/-- C3 (code bug): a job whose run exceeds the 30-minute timeout is NOT
transitioned to `failed` - the race's catch block only logs, so a task
that eventually completes (here after 40 minutes) leaves the job
`completed`, and in general the final status is the task's own outcome
regardless of the timeout.  The only effect of the timeout is the log
line; no lock is released (none is ever acquired, see C1). -/
theorem C3_timeout_does_not_fail_job :
    PROCESSING_TIMEOUT_MS < 2400000
    ∧ (processVideosAsyncWithTimeout 2400000 JobStatus.completed).1
        = JobStatus.completed
    ∧ ¬ (processVideosAsyncWithTimeout 2400000 JobStatus.completed).1
        = JobStatus.failed
    ∧ (processVideosAsyncWithTimeout 2400000 JobStatus.completed).2
        = some ("Processing timeout: Job exceeded maximum time limit of 30 minutes")
    ∧ (∀ (d : Nat) (f : JobStatus), (processVideosAsyncWithTimeout d f).1 = f) := by
  refine ⟨by decide, rfl, by decide, ?_, fun d f => rfl⟩
  unfold processVideosAsyncWithTimeout
  rw [if_pos (show PROCESSING_TIMEOUT_MS < 2400000 from by decide)]
  decide
